import Mathlib

/-!
Verification of the relationship-synchronization engine and query-parameter
interpreter of a Users/Tasks CRUD backend (Express + Mongoose routes for
`/api/users` and `/api/tasks`).

The development shallowly embeds the two route modules:
* the duplicated `parseQueryParams` query interpreter (identical in both
  route files), together with the GET handlers' application of the parsed
  options to the store query;
* the document store state (users and tasks) and the six mutating handlers
  (POST/PUT/DELETE for each resource), including the post-save relationship
  repair of `User.pendingTasks` and `Task.assignedUser`/`assignedUserName`;
* the promise-chain error propagation of the post-save repair steps.

JavaScript-specific behaviour (truthiness, `parseInt`, the `for…in`
enumeration used by the filter-as-projection heuristic, `===` comparisons)
is modelled explicitly.
-/

/-- JSON/JS values as produced by `JSON.parse` (numbers modelled as
integers, which covers every value the interpreter compares against). -/
inductive JValue where
  | null : JValue
  | bool : Bool → JValue
  | num : Int → JValue
  | str : String → JValue
  | arr : List JValue → JValue
  | obj : List (String × JValue) → JValue

/-- The `typeof val === 'number' && (val === 1 || val === 0)` test from the
filter-as-projection loop. -/
def isZeroOneNum : JValue → Bool
  | .num n => n = 1 ∨ n = 0
  | _ => false

/-- The own enumerable (key, value) pairs that a JS `for…in` loop and
`Object.keys` see on a parsed JSON value: the fields of an object, the
indexed elements of an array, the indexed characters of a string, and
nothing for the primitives. -/
def ownEntries : JValue → List (String × JValue)
  | .obj fs => fs
  | .arr xs => xs.enum.map (fun p => (toString p.1, p.2))
  | .str s => s.data.enum.map (fun p => (toString p.1, JValue.str (String.singleton p.2)))
  | _ => []

/-- The JS `StrWhiteSpaceChar` set that `parseInt` skips: TAB, LF, VT, FF,
CR, the Unicode Zs space separators (SP, NBSP, OGHAM SPACE, U+2000-200A,
NARROW NBSP, MMSP, IDEOGRAPHIC SPACE), the line/paragraph separators, and
the BOM. -/
def isJsSpace (c : Char) : Bool :=
  let n := c.toNat
  (9 ≤ n ∧ n ≤ 13) ∨ n = 32 ∨ n = 160 ∨ n = 5760 ∨
  (8192 ≤ n ∧ n ≤ 8202) ∨ n = 8232 ∨ n = 8233 ∨ n = 8239 ∨ n = 8287 ∨
  n = 12288 ∨ n = 65279

/-- Value of a decimal digit character, `none` for a non-digit. -/
def decDigitVal (c : Char) : Option Nat :=
  if c.isDigit then some (c.toNat - 48) else none

/-- Value of a hexadecimal digit character, `none` otherwise. -/
def hexDigitVal (c : Char) : Option Nat :=
  if c.isDigit then some (c.toNat - 48)
  else if 'a' ≤ c ∧ c ≤ 'f' then some (c.toNat - 87)
  else if 'A' ≤ c ∧ c ≤ 'F' then some (c.toNat - 55)
  else none

/-- Accumulate the value of the longest digit run at the head of the list;
`none` when no digit was consumed (JS `NaN`). -/
def digitRunVal (base : Nat) (f : Char → Option Nat) : List Char → Option Nat → Option Nat
  | [], acc => acc
  | c :: rest, acc =>
    match f c with
    | none => acc
    | some d => digitRunVal base f rest (some (acc.getD 0 * base + d))

/-- JavaScript `parseInt(s)` with no radix argument: skip leading
whitespace, read an optional sign, detect a `0x`/`0X` hex marker,
then take the longest digit run; `none` models `NaN`. -/
def jsParseInt (s : String) : Option Int :=
  let cs := s.data.dropWhile isJsSpace
  let signed : Int × List Char :=
    match cs with
    | '-' :: rest => (-1, rest)
    | '+' :: rest => (1, rest)
    | _ => (1, cs)
  match signed.2 with
  | '0' :: x :: rest =>
    if x = 'x' ∨ x = 'X' then
      (digitRunVal 16 hexDigitVal rest none).map (fun n => signed.1 * n)
    else
      (digitRunVal 10 decDigitVal signed.2 none).map (fun n => signed.1 * n)
  | _ => (digitRunVal 10 decDigitVal signed.2 none).map (fun n => signed.1 * n)

/-- Outcome of reading one JSON-carrying query parameter: `absent` models a
missing (or empty-string, hence falsy) parameter, `malformed` a present
value on which `JSON.parse` throws, `parsed v` a present value parsing to
`v`. -/
inductive Param where
  | absent : Param
  | malformed : Param
  | parsed : JValue → Param

/-- The recognized query-string inputs of `parseQueryParams`.  The numeric
parameters are kept as raw strings (the code applies `parseInt` itself);
`""` models an absent (falsy) value. -/
structure ReqQuery where
  whereQ : Param := .absent
  filterQ : Param := .absent
  sortQ : Param := .absent
  selectQ : Param := .absent
  skipQ : String := ""
  limitQ : String := ""
  countQ : String := ""

/-- The `options` object accumulated by `parseQueryParams`. -/
structure QOptions where
  sort : Option JValue := none
  select : Option JValue := none
  skip : Option Int := none
  limit : Option Int := none

/-- The successful result of `parseQueryParams`: the mongo filter `query`,
the `options`, and the count-mode flag. -/
structure ParsedQuery where
  query : JValue := .obj []
  options : QOptions := {}
  count : Bool := false

/-- The `where`/`filter` stage: `where` wins and is used verbatim;
otherwise `filter` is inspected — a non-empty object all of whose values
are the number 1 or 0 becomes the projection (`select`), anything else
becomes the filter predicate.  A `filter` that parses to JSON `null` hits
the `Object.keys(null)` TypeError inside the handler's try block (the
`for…in` loop iterates nothing, so the `isProjection &&` left conjunct is
true and `Object.keys` is always reached), which the catch converts into
the filter parse-error message; every other parsed value is safe for
`Object.keys`.  Returns the pair (query, select inferred from `filter`). -/
def parseWhereFilterStep (whereQ filterQ : Param) : Except String (JValue × Option JValue) :=
  match whereQ with
  | .malformed => .error "Invalid where parameter. Must be valid JSON."
  | .parsed v => .ok (v, none)
  | .absent =>
    match filterQ with
    | .malformed => .error "Invalid filter parameter. Must be valid JSON."
    | .parsed v =>
      match v with
      | .null => .error "Invalid filter parameter. Must be valid JSON."
      | _ =>
        let entries := ownEntries v
        if (entries.all fun e => isZeroOneNum e.2) && !entries.isEmpty then
          .ok (JValue.obj [], some v)
        else
          .ok (v, none)
    | .absent => .ok (JValue.obj [], none)

/-- One JSON-object parameter (`sort` or `select`): absent contributes
nothing, malformed aborts with the parameter's message. -/
def parseJsonStep (p : Param) (msg : String) : Except String (Option JValue) :=
  match p with
  | .absent => .ok none
  | .malformed => .error msg
  | .parsed v => .ok (some v)

/-- The `skip`/`limit` numeric stage: a present value goes through
`parseInt` and `NaN` aborts with the parameter's message. -/
def parseNumStep (s : String) (msg : String) : Except String (Option Int) :=
  if s = "" then .ok none
  else
    match jsParseInt s with
    | none => .error msg
    | some n => .ok (some n)

/-- `parseQueryParams(req, defaultLimit)` as written (identically) in both
route files: where/filter, then sort, then select (overriding a projection
inferred from filter), then skip, then limit (falling back to the caller's
default when absent), then the `count === 'true'` flag.  `defaultLimit =
none` models the `undefined` the users route passes. -/
def parseQueryParams (req : ReqQuery) (defaultLimit : Option Int) : Except String ParsedQuery :=
  match parseWhereFilterStep req.whereQ req.filterQ with
  | .error e => .error e
  | .ok (query, selFromFilter) =>
    match parseJsonStep req.sortQ "Invalid sort parameter. Must be valid JSON." with
    | .error e => .error e
    | .ok sortV =>
      match parseJsonStep req.selectQ "Invalid select parameter. Must be valid JSON." with
      | .error e => .error e
      | .ok selectV =>
        match parseNumStep req.skipQ "Invalid skip parameter. Must be a number." with
        | .error e => .error e
        | .ok skipV =>
          match parseNumStep req.limitQ "Invalid limit parameter. Must be a number." with
          | .error e => .error e
          | .ok limitV =>
            .ok { query := query
                , options :=
                    { sort := sortV
                    , select := match selectV with | some v => some v | none => selFromFilter
                    , skip := skipV
                    , limit := match limitV with | some n => some n | none => defaultLimit }
                , count := req.countQ = "true" }

/-- JS truthiness of a parsed JSON value (used by the GET handlers'
`if (options.sort) …` guards). -/
def jsTruthy : JValue → Bool
  | .null => false
  | .bool b => b
  | .num n => n ≠ 0
  | .str s => s ≠ ""
  | .arr _ => true
  | .obj _ => true

/-- What the GET list handlers actually pass on to the mongoose query: each
option is applied only when truthy, so a parsed `0` is dropped. -/
structure AppliedQuery where
  sortUsed : Option JValue
  selectUsed : Option JValue
  skipUsed : Option Int
  limitUsed : Option Int
  countMode : Bool

/-- The option-application block of the GET handlers (`if (options.skip)
mongooseQuery.skip(options.skip)` and friends). -/
def applyOptions (p : ParsedQuery) : AppliedQuery :=
  { sortUsed := match p.options.sort with
      | some v => if jsTruthy v then some v else none
      | none => none
  , selectUsed := match p.options.select with
      | some v => if jsTruthy v then some v else none
      | none => none
  , skipUsed := match p.options.skip with
      | some n => if n ≠ 0 then some n else none
      | none => none
  , limitUsed := match p.options.limit with
      | some n => if n ≠ 0 then some n else none
      | none => none
  , countMode := p.count }

/-- The default limit GET /api/tasks passes to the interpreter. -/
def tasksDefaultLimit : Option Int := some 100

/-- The (absent) default limit GET /api/users passes to the interpreter. -/
def usersDefaultLimit : Option Int := none

/-- The parse stage of GET /api/tasks (`parseQueryParams(req, 100)`). -/
def getTasksParse (req : ReqQuery) : Except String ParsedQuery :=
  parseQueryParams req tasksDefaultLimit

/-- The parse stage of GET /api/users (`parseQueryParams(req, undefined)`). -/
def getUsersParse (req : ReqQuery) : Except String ParsedQuery :=
  parseQueryParams req usersDefaultLimit

/-- A stored User document (the fields the routes touch). -/
structure DUser where
  id : String
  name : String
  email : String
  pendingTasks : List String
deriving DecidableEq

/-- A stored Task document (the fields the routes touch). -/
structure DTask where
  id : String
  name : String
  description : String
  deadline : String
  completed : Bool
  assignedUser : String
  assignedUserName : String
deriving DecidableEq

/-- The document store: the two collections. -/
structure DB where
  users : List DUser
  tasks : List DTask
deriving DecidableEq

/-- `User.findById`. -/
def findUser (db : DB) (uid : String) : Option DUser :=
  db.users.find? (fun u => u.id == uid)

/-- `Task.findById`. -/
def findTask (db : DB) (tid : String) : Option DTask :=
  db.tasks.find? (fun t => t.id == tid)

/-- `user.save()` on a fetched-and-modified document: replace the stored
document(s) carrying this `_id`. -/
def saveUser (db : DB) (u : DUser) : DB :=
  { db with users := db.users.map (fun x => if x.id = u.id then u else x) }

/-- `task.save()` on a fetched-and-modified document. -/
def saveTask (db : DB) (t : DTask) : DB :=
  { db with tasks := db.tasks.map (fun x => if x.id = t.id then t else x) }

/-- `User.findByIdAndDelete`. -/
def deleteUserDoc (db : DB) (uid : String) : DB :=
  { db with users := db.users.filter (fun u => u.id ≠ uid) }

/-- `Task.findByIdAndDelete`. -/
def deleteTaskDoc (db : DB) (tid : String) : DB :=
  { db with tasks := db.tasks.filter (fun t => t.id ≠ tid) }

/-- Remove `tid` from the pendingTasks of the user `uid` (the
`pendingTasks.filter(id => id !== taskId)` + save step); a missing user is
silently skipped. -/
def removePending (db : DB) (uid tid : String) : DB :=
  match findUser db uid with
  | none => db
  | some u => saveUser db { u with pendingTasks := u.pendingTasks.filter (fun x => x ≠ tid) }

/-- Append `tid` to the pendingTasks of the user `uid` unless already
present (the `includes`/`push`/save step); a missing user is skipped. -/
def addPending (db : DB) (uid tid : String) : DB :=
  match findUser db uid with
  | none => db
  | some u =>
    if tid ∈ u.pendingTasks then db
    else saveUser db { u with pendingTasks := u.pendingTasks ++ [tid] }

/-- Set a task back to the unassigned sentinel values and save it; a
missing task is silently skipped. -/
def unassignTask (db : DB) (tid : String) : DB :=
  match findTask db tid with
  | none => db
  | some t => saveTask db { t with assignedUser := "", assignedUserName := "unassigned" }

/-- Point a task at the user `uid` (name `nm`) and save it; a missing task
is silently skipped. -/
def assignTask (db : DB) (tid uid nm : String) : DB :=
  match findTask db tid with
  | none => db
  | some t => saveTask db { t with assignedUser := uid, assignedUserName := nm }

/-- Unassign every task named in `ids` in order (the `unassignPromises`
batches). -/
def unassignAll (db : DB) (ids : List String) : DB :=
  ids.foldl unassignTask db

/-- Assign every task named in `ids` to user `uid`/`nm` in order (the
`assignPromises` / post-create `updatePromises` batches). -/
def assignAll (db : DB) (ids : List String) (uid nm : String) : DB :=
  ids.foldl (fun d t => assignTask d t uid nm) db

/-- `Task.updateMany({assignedUser: uid}, {assignedUserName: nm})`: the
bulk rename of the denormalized user name. -/
def bulkRename (db : DB) (uid nm : String) : DB :=
  { db with tasks := db.tasks.map (fun t =>
      if t.assignedUser = uid then { t with assignedUserName := nm } else t) }

/-- An HTTP response: status code plus the `message` of the JSON envelope
(`none` models the empty `204` body of `res.status(204).send()`). -/
structure Response where
  status : Nat
  message : Option String
deriving DecidableEq

/-- A request body for the task routes.  Absent (or otherwise falsy) string
fields are modelled as `""`, matching the `req.body.x || fallback` reads;
`completed` is kept as the raw JS value because the routes compare it with
`=== true || === 'true'`. -/
structure TaskBody where
  name : String := ""
  description : String := ""
  deadline : String := ""
  completed : Option JValue := none
  assignedUser : String := ""
  assignedUserName : String := ""

/-- The `req.body.completed === true || req.body.completed === 'true' ||
false` coercion used by both POST and PUT /api/tasks. -/
def coerceCompleted : Option JValue → Bool
  | some (.bool true) => true
  | some (.str s) => s = "true"
  | _ => false

/-- The pre-save `assignedUserName` resolution shared by POST and PUT
/api/tasks: start from `req.body.assignedUserName || "unassigned"`; when a
user is assigned and no explicit name (or the sentinel) was supplied, look
the user up and take its current name, falling back to `"unassigned"` when
the lookup misses or fails. -/
def resolveAssignedUserName (db : DB) (au bodyName : String) : String :=
  if au ≠ "" ∧ (bodyName = "" ∨ bodyName = "unassigned") then
    match findUser db au with
    | some u => u.name
    | none => "unassigned"
  else if bodyName = "" then "unassigned" else bodyName

/-- POST /api/tasks (success path of the store writes): validate, build the
task (with `completed` coercion and `assignedUserName` resolution), save
it, and — when it is assigned and not completed — append its id to the
assigned user's pendingTasks unless already present.  `newId` is the
freshly generated `_id`. -/
def postTasks (db : DB) (body : TaskBody) (newId : String) : DB × Response :=
  if body.name = "" ∨ body.deadline = "" then
    (db, ⟨400, some "Task must have a name and deadline"⟩)
  else
    let completed := coerceCompleted body.completed
    let au := body.assignedUser
    let auName := resolveAssignedUserName db au body.assignedUserName
    let task : DTask :=
      { id := newId, name := body.name, description := body.description
      , deadline := body.deadline, completed := completed
      , assignedUser := au, assignedUserName := auName }
    let db1 : DB := { db with tasks := db.tasks ++ [task] }
    let db2 := if au ≠ "" ∧ completed = false then addPending db1 au newId else db1
    (db2, ⟨201, some "Task created successfully"⟩)

/-- PUT /api/tasks/:id (success path of the store writes): validate, fetch,
overwrite the mutable fields, save, then repair pendingTasks — remove from
the old user when the target changed or the task just became completed,
and add to the new user when assigned, not completed and the target
changed. -/
def putTasks (db : DB) (tid : String) (body : TaskBody) : DB × Response :=
  if body.name = "" ∨ body.deadline = "" then
    (db, ⟨400, some "Task must have a name and deadline"⟩)
  else
    match findTask db tid with
    | none => (db, ⟨404, some "Task not found"⟩)
    | some task =>
      let oldAU := task.assignedUser
      let oldC := task.completed
      let newAU := body.assignedUser
      let newC := coerceCompleted body.completed
      let newAUName := resolveAssignedUserName db newAU body.assignedUserName
      let task' : DTask :=
        { task with
          name := body.name, description := body.description,
          deadline := body.deadline, completed := newC,
          assignedUser := newAU, assignedUserName := newAUName }
      let db1 := saveTask db task'
      if oldAU ≠ "" ∧ (oldAU ≠ newAU ∨ (newC = true ∧ oldC = false)) then
        let db2 := removePending db1 oldAU task.id
        let db3 := if newAU ≠ "" ∧ newC = false then addPending db2 newAU task.id else db2
        (db3, ⟨200, some "Task updated successfully"⟩)
      else if newAU ≠ "" ∧ newC = false ∧ oldAU ≠ newAU then
        (addPending db1 newAU task.id, ⟨200, some "Task updated successfully"⟩)
      else
        (db1, ⟨200, some "Task updated successfully"⟩)

/-- DELETE /api/tasks/:id: fetch (404 when absent), remove the task id from
its assigned user's pendingTasks when assigned, delete the document,
respond 204 with an empty body. -/
def deleteTasks (db : DB) (tid : String) : DB × Response :=
  match findTask db tid with
  | none => (db, ⟨404, some "Task not found"⟩)
  | some task =>
    let db1 := if task.assignedUser ≠ "" then removePending db task.assignedUser task.id else db
    (deleteTaskDoc db1 task.id, ⟨204, none⟩)

/-- A request body for the user routes. -/
structure UserBody where
  name : String := ""
  email : String := ""
  pendingTasks : List String := []

/-- POST /api/users (success path of the store writes): validate, reject a
duplicate email (the unique-index `11000` branch), save the new user, then
point every task named in its pendingTasks at the new user. -/
def postUsers (db : DB) (body : UserBody) (newId : String) : DB × Response :=
  if body.name = "" ∨ body.email = "" then
    (db, ⟨400, some "User must have a name and email"⟩)
  else if db.users.any (fun u => u.email == body.email) then
    (db, ⟨400, some "User with this email already exists"⟩)
  else
    let user : DUser := { id := newId, name := body.name, email := body.email
                        , pendingTasks := body.pendingTasks }
    let db1 : DB := { db with users := db.users ++ [user] }
    let db2 := assignAll db1 body.pendingTasks newId body.name
    (db2, ⟨201, some "User created successfully"⟩)

/-- PUT /api/users/:id (success path of the store writes): validate, fetch
(404 when absent), reject a duplicate email, replace the mutable fields,
save, then diff pendingTasks — unassign the removed task ids, assign the
added ones to this user — and, when the name changed, bulk-update
`assignedUserName` on every task pointing at this user. -/
def putUsers (db : DB) (uid : String) (body : UserBody) : DB × Response :=
  if body.name = "" ∨ body.email = "" then
    (db, ⟨400, some "User must have a name and email"⟩)
  else
    match findUser db uid with
    | none => (db, ⟨404, some "User not found"⟩)
    | some user =>
      if db.users.any (fun u => u.email == body.email && u.id != user.id) then
        (db, ⟨400, some "User with this email already exists"⟩)
      else
        let oldPT := user.pendingTasks
        let newPT := body.pendingTasks
        let user' : DUser :=
          { user with name := body.name, email := body.email, pendingTasks := newPT }
        let db1 := saveUser db user'
        let removed := oldPT.filter (fun t => t ∉ newPT)
        let added := newPT.filter (fun t => t ∉ oldPT)
        let db2 := unassignAll db1 removed
        let db3 := assignAll db2 added user.id body.name
        let db4 := if user.name ≠ body.name then bulkRename db3 user.id body.name else db3
        (db4, ⟨200, some "User updated successfully"⟩)

/-- DELETE /api/users/:id: fetch (404 when absent), unassign every task in
the user's pendingTasks, delete the user document, respond 204 with an
empty body. -/
def deleteUsers (db : DB) (uid : String) : DB × Response :=
  match findUser db uid with
  | none => (db, ⟨404, some "User not found"⟩)
  | some user =>
    let db1 := unassignAll db user.pendingTasks
    (deleteUserDoc db1 user.id, ⟨204, none⟩)

/-- One mutating handler invocation (the GET handlers never write). -/
inductive Op where
  | postTask (body : TaskBody) (newId : String)
  | putTask (tid : String) (body : TaskBody)
  | deleteTask (tid : String)
  | postUser (body : UserBody) (newId : String)
  | putUser (uid : String) (body : UserBody)
  | deleteUser (uid : String)

/-- Dispatch one handler invocation against the store. -/
def step (db : DB) : Op → DB × Response
  | .postTask body newId => postTasks db body newId
  | .putTask tid body => putTasks db tid body
  | .deleteTask tid => deleteTasks db tid
  | .postUser body newId => postUsers db body newId
  | .putUser uid body => putUsers db uid body
  | .deleteUser uid => deleteUsers db uid

/-- The spec's first relationship invariant: every assigned, not-completed
task is listed in the pendingTasks of every stored user carrying its
`assignedUser` id. -/
def PendingInv (db : DB) : Prop :=
  ∀ t ∈ db.tasks, t.assignedUser ≠ "" → t.completed = false →
    ∀ u ∈ db.users, u.id = t.assignedUser → t.id ∈ u.pendingTasks

instance (db : DB) : Decidable (PendingInv db) := by
  unfold PendingInv; infer_instance

/-- The PUT /api/tasks/:id input that neither sync branch covers: the
target user is unchanged and non-empty while `completed` goes from true
back to false. -/
def putTaskCompletedReset (db : DB) (tid : String) (body : TaskBody) : Bool :=
  match findTask db tid with
  | none => false
  | some t =>
    decide (t.assignedUser ≠ "" ∧ t.assignedUser = body.assignedUser ∧
            t.completed = true ∧ coerceCompleted body.completed = false)

/-- Side conditions under which one handler invocation preserves
`PendingInv`: freshly generated `_id`s on user creation (no stored user or
task reference carries the new id), and the PUT /api/tasks completed-reset
gap excluded. -/
def OpSafe (db : DB) : Op → Prop
  | .postUser _ newId =>
      (∀ u ∈ db.users, u.id ≠ newId) ∧ (∀ t ∈ db.tasks, t.assignedUser ≠ newId)
  | .putTask tid body => putTaskCompletedReset db tid body = false
  | _ => True

instance (db : DB) (op : Op) : Decidable (OpSafe db op) := by
  unfold OpSafe; cases op <;> infer_instance

/-- The response POST /api/tasks produces once the task itself has been
saved, as a function of the outcome of the pendingTasks repair step: the
repair chain carries its own `.catch` which logs and still sends 201, so
the repair outcome never changes the response. -/
def postTasksRepairResp (savedTask : DTask) (repair : Except String Unit) : Response :=
  if savedTask.assignedUser ≠ "" ∧ savedTask.completed = false then
    match repair with
    | .ok _ => ⟨201, some "Task created successfully"⟩
    | .error _ => ⟨201, some "Task created successfully"⟩
  else ⟨201, some "Task created successfully"⟩

/-- The response POST /api/users produces once the user itself has been
saved, as a function of the outcome of the `Promise.all(updatePromises)`
repair step: its `.catch` sends a 500 "Error updating assigned tasks". -/
def postUsersRepairResp (savedUser : DUser) (repair : Except String Unit) : Response :=
  if savedUser.pendingTasks ≠ [] then
    match repair with
    | .ok _ => ⟨201, some "User created successfully"⟩
    | .error _ => ⟨500, some "Error updating assigned tasks"⟩
  else ⟨201, some "User created successfully"⟩

/-- The response PUT /api/tasks/:id produces once the task itself has been
saved: when either pendingTasks sync branch runs, its rejection propagates
to the handler's outer `.catch`, which sends a 500 "Error updating task". -/
def putTasksRepairResp (oldAU newAU : String) (oldC newC : Bool) (repair : Except String Unit) : Response :=
  if oldAU ≠ "" ∧ (oldAU ≠ newAU ∨ (newC = true ∧ oldC = false)) then
    match repair with
    | .ok _ => ⟨200, some "Task updated successfully"⟩
    | .error _ => ⟨500, some "Error updating task"⟩
  else if newAU ≠ "" ∧ newC = false ∧ oldAU ≠ newAU then
    match repair with
    | .ok _ => ⟨200, some "Task updated successfully"⟩
    | .error _ => ⟨500, some "Error updating task"⟩
  else ⟨200, some "Task updated successfully"⟩

/-- The response PUT /api/users/:id produces once the user itself has been
saved, as a function of the combined `Promise.all` of the unassign/assign/
rename repairs: a rejection propagates to the outer `.catch`, which sends
a 500 "Error updating user" (the `11000` branch cannot fire here). -/
def putUsersRepairResp (repair : Except String Unit) : Response :=
  match repair with
  | .ok _ => ⟨200, some "User updated successfully"⟩
  | .error _ => ⟨500, some "Error updating user"⟩

/-- `uid`-uniqueness of the stored users (Mongo's `_id` index). -/
def UsersNodup (db : DB) : Prop := (db.users.map (fun u => u.id)).Nodup

instance (db : DB) : Decidable (UsersNodup db) := by
  unfold UsersNodup; infer_instance

/-- Every stored user carrying the id `uid` lists `tid` among its pending
tasks. -/
def UserHas (db : DB) (uid tid : String) : Prop :=
  ∀ u ∈ db.users, u.id = uid → tid ∈ u.pendingTasks

theorem findUser_mem_id {db : DB} {uid : String} {u : DUser}
    (h : findUser db uid = some u) : u ∈ db.users ∧ u.id = uid := by
  refine ⟨List.mem_of_find?_eq_some h, ?_⟩
  have := List.find?_some h
  simpa using this

theorem findUser_eq_none {db : DB} {uid : String}
    (h : findUser db uid = none) : ∀ u ∈ db.users, u.id ≠ uid := by
  intro u hu
  have := List.find?_eq_none.mp h u hu
  simpa using this

theorem findTask_mem_id {db : DB} {tid : String} {t : DTask}
    (h : findTask db tid = some t) : t ∈ db.tasks ∧ t.id = tid := by
  refine ⟨List.mem_of_find?_eq_some h, ?_⟩
  have := List.find?_some h
  simpa using this

theorem findTask_eq_none {db : DB} {tid : String}
    (h : findTask db tid = none) : ∀ t ∈ db.tasks, t.id ≠ tid := by
  intro t ht
  have := List.find?_eq_none.mp h t ht
  simpa using this

theorem mem_saveUser {db : DB} {u' u : DUser}
    (h : u ∈ (saveUser db u').users) : u = u' ∨ (u ∈ db.users ∧ u.id ≠ u'.id) := by
  unfold saveUser at h
  simp only [List.mem_map] at h
  obtain ⟨x, hx, hxe⟩ := h
  by_cases hid : x.id = u'.id
  · left; simp [hid] at hxe; exact hxe.symm
  · right; simp [hid] at hxe; exact hxe ▸ ⟨hx, hid⟩

theorem mem_saveTask {db : DB} {t' t : DTask}
    (h : t ∈ (saveTask db t').tasks) : t = t' ∨ (t ∈ db.tasks ∧ t.id ≠ t'.id) := by
  unfold saveTask at h
  simp only [List.mem_map] at h
  obtain ⟨x, hx, hxe⟩ := h
  by_cases hid : x.id = t'.id
  · left; simp [hid] at hxe; exact hxe.symm
  · right; simp [hid] at hxe; exact hxe ▸ ⟨hx, hid⟩

theorem saveTask_mem_self {db : DB} {t' : DTask} {t0 : DTask}
    (h0 : t0 ∈ db.tasks) (hid : t0.id = t'.id) : t' ∈ (saveTask db t').tasks := by
  unfold saveTask
  simp only [List.mem_map]
  exact ⟨t0, h0, by simp [hid]⟩

theorem users_saveTask (db : DB) (t : DTask) : (saveTask db t).users = db.users := rfl

theorem tasks_saveUser (db : DB) (u : DUser) : (saveUser db u).tasks = db.tasks := rfl

theorem tasks_addPending (db : DB) (uid tid : String) :
    (addPending db uid tid).tasks = db.tasks := by
  unfold addPending
  cases findUser db uid with
  | none => rfl
  | some u => by_cases h : tid ∈ u.pendingTasks <;> simp [h, tasks_saveUser]

theorem tasks_removePending (db : DB) (uid tid : String) :
    (removePending db uid tid).tasks = db.tasks := by
  unfold removePending
  cases findUser db uid with
  | none => rfl
  | some u => rfl

theorem users_unassignTask (db : DB) (tid : String) :
    (unassignTask db tid).users = db.users := by
  unfold unassignTask
  cases findTask db tid with
  | none => rfl
  | some t => rfl

theorem users_assignTask (db : DB) (tid uid nm : String) :
    (assignTask db tid uid nm).users = db.users := by
  unfold assignTask
  cases findTask db tid with
  | none => rfl
  | some t => rfl

theorem users_unassignAll (db : DB) (ids : List String) :
    (unassignAll db ids).users = db.users := by
  induction ids generalizing db with
  | nil => rfl
  | cons a rest ih =>
    show (unassignAll (unassignTask db a) rest).users = db.users
    rw [ih, users_unassignTask]

theorem users_assignAll (db : DB) (ids : List String) (uid nm : String) :
    (assignAll db ids uid nm).users = db.users := by
  induction ids generalizing db with
  | nil => rfl
  | cons a rest ih =>
    show (assignAll (assignTask db a uid nm) rest uid nm).users = db.users
    rw [ih, users_assignTask]

theorem users_bulkRename (db : DB) (uid nm : String) :
    (bulkRename db uid nm).users = db.users := rfl

theorem users_removePending_nodup {db : DB} {uid tid : String}
    (h : UsersNodup db) : UsersNodup (removePending db uid tid) := by
  unfold removePending
  cases findUser db uid with
  | none => exact h
  | some u =>
    unfold UsersNodup saveUser at *
    simp only [List.map_map]
    have : ((fun u_1 => u_1.id) ∘ fun x =>
        if x.id = u.id then { u with pendingTasks := u.pendingTasks.filter (fun x => x ≠ tid) } else x)
        = fun x : DUser => x.id := by
      funext x
      by_cases hx : x.id = u.id <;> simp [hx]
    rw [this]
    exact h

theorem userHas_of_users_eq {db' db : DB} {uid tid : String}
    (he : db'.users = db.users) (h : UserHas db uid tid) : UserHas db' uid tid := by
  intro u hu hid
  exact h u (he ▸ hu) hid

theorem userHas_of_users_sub {db' db : DB} {uid tid : String}
    (he : ∀ u ∈ db'.users, u ∈ db.users) (h : UserHas db uid tid) : UserHas db' uid tid := by
  intro u hu hid
  exact h u (he u hu) hid

theorem userHas_saveUser {db : DB} {u' : DUser} {uid tid : String}
    (h1 : u'.id = uid → tid ∈ u'.pendingTasks) (h : UserHas db uid tid) :
    UserHas (saveUser db u') uid tid := by
  intro u hu hid
  rcases mem_saveUser hu with rfl | ⟨hmem, _⟩
  · exact h1 hid
  · exact h u hmem hid

theorem userHas_saveUser_self {db : DB} {u' : DUser} {tid : String}
    (h : tid ∈ u'.pendingTasks) : UserHas (saveUser db u') u'.id tid := by
  intro u hu hid
  rcases mem_saveUser hu with rfl | ⟨_, hne⟩
  · exact h
  · exact absurd hid hne

theorem userHas_addPending_self {db : DB} {uid tid : String}
    (hnd : UsersNodup db) : UserHas (addPending db uid tid) uid tid := by
  unfold addPending
  cases hf : findUser db uid with
  | none =>
    intro u hu hid
    exact absurd hid (findUser_eq_none hf u hu)
  | some u0 =>
    obtain ⟨hu0, hid0⟩ := findUser_mem_id hf
    by_cases hin : tid ∈ u0.pendingTasks
    · simp only [hin, if_pos]
      intro u hu hid
      have : u = u0 := List.inj_on_of_nodup_map hnd hu hu0 (hid.trans hid0.symm)
      exact this ▸ hin
    · simp only [hin, if_neg, not_false_iff]
      intro u hu hid
      rcases mem_saveUser hu with rfl | ⟨_, hne⟩
      · simp
      · exact absurd (hid.trans hid0.symm) hne

theorem userHas_addPending_mono {db : DB} {uid tid uid' tid' : String}
    (h : UserHas db uid' tid') : UserHas (addPending db uid tid) uid' tid' := by
  unfold addPending
  cases hf : findUser db uid with
  | none => exact h
  | some u0 =>
    obtain ⟨hu0, hid0⟩ := findUser_mem_id hf
    by_cases hin : tid ∈ u0.pendingTasks
    · simpa [hin] using h
    · simp only [hin, if_neg, not_false_iff]
      refine userHas_saveUser (fun hid => ?_) h
      exact List.mem_append_left _ (h u0 hu0 (by simpa using hid))

theorem userHas_removePending_ne {db : DB} {uid tid uid' tid' : String}
    (hne : tid' ≠ tid) (h : UserHas db uid' tid') :
    UserHas (removePending db uid tid) uid' tid' := by
  unfold removePending
  cases hf : findUser db uid with
  | none => exact h
  | some u0 =>
    obtain ⟨hu0, hid0⟩ := findUser_mem_id hf
    refine userHas_saveUser (fun hid => ?_) h
    have : tid' ∈ u0.pendingTasks := h u0 hu0 (by simpa using hid)
    simp [List.mem_filter, this, hne]

theorem removePending_not_mem {db : DB} {uid tid : String} :
    ∀ u ∈ (removePending db uid tid).users, u.id = uid → tid ∉ u.pendingTasks := by
  unfold removePending
  cases hf : findUser db uid with
  | none =>
    intro u hu hid
    exact absurd hid (findUser_eq_none hf u hu)
  | some u0 =>
    obtain ⟨hu0, hid0⟩ := findUser_mem_id hf
    intro u hu hid
    rcases mem_saveUser hu with rfl | ⟨_, hne⟩
    · simp [List.mem_filter]
    · exact absurd (hid.trans hid0.symm) hne

theorem mem_addPending_of_ne {db : DB} {uid tid : String} {u : DUser}
    (hu : u ∈ (addPending db uid tid).users) (hne : u.id ≠ uid) : u ∈ db.users := by
  unfold addPending at hu
  cases hf : findUser db uid with
  | none => rw [hf] at hu; exact hu
  | some u0 =>
    obtain ⟨hu0, hid0⟩ := findUser_mem_id hf
    rw [hf] at hu
    by_cases hin : tid ∈ u0.pendingTasks
    · simpa [hin] using hu
    · simp only [hin, if_neg, not_false_iff] at hu
      rcases mem_saveUser hu with rfl | ⟨hmem, _⟩
      · exact absurd hid0 hne
      · exact hmem

theorem unassignTask_mem_of_ne {db : DB} {tid : String} {t : DTask}
    (h : t ∈ (unassignTask db tid).tasks) (hne : t.id ≠ tid) : t ∈ db.tasks := by
  unfold unassignTask at h
  cases hf : findTask db tid with
  | none => rw [hf] at h; exact h
  | some t0 =>
    obtain ⟨ht0, hid0⟩ := findTask_mem_id hf
    rw [hf] at h
    rcases mem_saveTask h with rfl | ⟨hmem, _⟩
    · exact absurd hid0 hne
    · exact hmem

theorem unassignTask_mem_eq {db : DB} {tid : String} {t : DTask}
    (h : t ∈ (unassignTask db tid).tasks) (heq : t.id = tid) :
    t.assignedUser = "" ∧ t.assignedUserName = "unassigned" := by
  unfold unassignTask at h
  cases hf : findTask db tid with
  | none =>
    rw [hf] at h
    exact absurd heq (findTask_eq_none hf t h)
  | some t0 =>
    obtain ⟨ht0, hid0⟩ := findTask_mem_id hf
    rw [hf] at h
    rcases mem_saveTask h with rfl | ⟨_, hne⟩
    · exact ⟨rfl, rfl⟩
    · exact absurd (heq.trans hid0.symm) hne

theorem unassignTask_origin {db : DB} {tid : String} {t : DTask}
    (h : t ∈ (unassignTask db tid).tasks) :
    ∃ t0 ∈ db.tasks, t0.id = t.id ∧ t0.completed = t.completed := by
  unfold unassignTask at h
  cases hf : findTask db tid with
  | none => rw [hf] at h; exact ⟨t, h, rfl, rfl⟩
  | some t0 =>
    obtain ⟨ht0, _⟩ := findTask_mem_id hf
    rw [hf] at h
    rcases mem_saveTask h with rfl | ⟨hmem, _⟩
    · exact ⟨t0, ht0, rfl, rfl⟩
    · exact ⟨t, hmem, rfl, rfl⟩

theorem unassignAll_mem_of_notMem {ids : List String} {db : DB} {t : DTask}
    (h : t ∈ (unassignAll db ids).tasks) (hni : t.id ∉ ids) : t ∈ db.tasks := by
  induction ids generalizing db with
  | nil => exact h
  | cons a rest ih =>
    have h' : t ∈ (unassignAll (unassignTask db a) rest).tasks := h
    have hrest : t.id ∉ rest := fun hm => hni (List.mem_cons_of_mem _ hm)
    have hne : t.id ≠ a := fun he => hni (he ▸ List.mem_cons_self _ _)
    exact unassignTask_mem_of_ne (ih h' hrest) hne

theorem unassignAll_assigned {ids : List String} {db : DB} {t : DTask}
    (h : t ∈ (unassignAll db ids).tasks) (hau : t.assignedUser ≠ "") : t ∈ db.tasks := by
  induction ids generalizing db with
  | nil => exact h
  | cons a rest ih =>
    have h' : t ∈ (unassignAll (unassignTask db a) rest).tasks := h
    have hmem : t ∈ (unassignTask db a).tasks := ih h'
    unfold unassignTask at hmem
    cases hf : findTask db a with
    | none => rw [hf] at hmem; exact hmem
    | some t0 =>
      rw [hf] at hmem
      rcases mem_saveTask hmem with rfl | ⟨hm, _⟩
      · exact absurd rfl hau
      · exact hm

theorem unassignAll_hit {ids : List String} {db : DB} {t : DTask}
    (h : t ∈ (unassignAll db ids).tasks) (hin : t.id ∈ ids) :
    t.assignedUser = "" ∧ t.assignedUserName = "unassigned" := by
  induction ids generalizing db with
  | nil => cases hin
  | cons a rest ih =>
    have h' : t ∈ (unassignAll (unassignTask db a) rest).tasks := h
    by_cases hr : t.id ∈ rest
    · exact ih h' hr
    · have heqa : t.id = a := by
        rcases List.mem_cons.mp hin with he | hm
        · exact he
        · exact absurd hm hr
      have hmem : t ∈ (unassignTask db a).tasks := unassignAll_mem_of_notMem h' hr
      exact unassignTask_mem_eq hmem heqa

theorem assignTask_mem_of_ne {db : DB} {tid uid nm : String} {t : DTask}
    (h : t ∈ (assignTask db tid uid nm).tasks) (hne : t.id ≠ tid) : t ∈ db.tasks := by
  unfold assignTask at h
  cases hf : findTask db tid with
  | none => rw [hf] at h; exact h
  | some t0 =>
    obtain ⟨ht0, hid0⟩ := findTask_mem_id hf
    rw [hf] at h
    rcases mem_saveTask h with rfl | ⟨hmem, _⟩
    · exact absurd hid0 hne
    · exact hmem

theorem assignTask_mem_eq {db : DB} {tid uid nm : String} {t : DTask}
    (h : t ∈ (assignTask db tid uid nm).tasks) (heq : t.id = tid) :
    t.assignedUser = uid ∧ ∃ t0 ∈ db.tasks, t0.id = t.id ∧ t0.completed = t.completed := by
  unfold assignTask at h
  cases hf : findTask db tid with
  | none =>
    rw [hf] at h
    exact absurd heq (findTask_eq_none hf t h)
  | some t0 =>
    obtain ⟨ht0, hid0⟩ := findTask_mem_id hf
    rw [hf] at h
    rcases mem_saveTask h with rfl | ⟨_, hne⟩
    · exact ⟨rfl, t0, ht0, rfl, rfl⟩
    · exact absurd (heq.trans hid0.symm) hne

theorem assignTask_origin {db : DB} {tid uid nm : String} {t : DTask}
    (h : t ∈ (assignTask db tid uid nm).tasks) :
    ∃ t0 ∈ db.tasks, t0.id = t.id ∧ t0.completed = t.completed := by
  unfold assignTask at h
  cases hf : findTask db tid with
  | none => rw [hf] at h; exact ⟨t, h, rfl, rfl⟩
  | some t0 =>
    obtain ⟨ht0, _⟩ := findTask_mem_id hf
    rw [hf] at h
    rcases mem_saveTask h with rfl | ⟨hmem, _⟩
    · exact ⟨t0, ht0, rfl, rfl⟩
    · exact ⟨t, hmem, rfl, rfl⟩

theorem assignAll_mem {ids : List String} {db : DB} {uid nm : String} {t : DTask}
    (h : t ∈ (assignAll db ids uid nm).tasks) :
    (t ∈ db.tasks ∧ t.id ∉ ids) ∨
    (t.id ∈ ids ∧ t.assignedUser = uid ∧
      ∃ t0 ∈ db.tasks, t0.id = t.id ∧ t0.completed = t.completed) := by
  induction ids generalizing db with
  | nil => exact Or.inl ⟨h, List.not_mem_nil _⟩
  | cons a rest ih =>
    have h' : t ∈ (assignAll (assignTask db a uid nm) rest uid nm).tasks := h
    rcases ih h' with ⟨hmem, hni⟩ | ⟨hin, hau, t0', ht0', hid', hc'⟩
    · by_cases heq : t.id = a
      · obtain ⟨hau, t0, ht0, hid, hc⟩ := assignTask_mem_eq hmem heq
        exact Or.inr ⟨heq ▸ List.mem_cons_self _ _, hau, t0, ht0, hid, hc⟩
      · exact Or.inl ⟨assignTask_mem_of_ne hmem heq,
          fun hm => (List.mem_cons.mp hm).elim heq (fun hr => hni hr)⟩
    · obtain ⟨t0, ht0, hid, hc⟩ := assignTask_origin ht0'
      exact Or.inr ⟨List.mem_cons_of_mem _ hin, hau, t0, ht0,
        hid.trans hid', hc.trans hc'⟩

theorem bulkRename_origin {db : DB} {uid nm : String} {t : DTask}
    (h : t ∈ (bulkRename db uid nm).tasks) :
    ∃ t0 ∈ db.tasks, t0.id = t.id ∧ t0.assignedUser = t.assignedUser ∧
      t0.completed = t.completed := by
  unfold bulkRename at h
  simp only [List.mem_map] at h
  obtain ⟨x, hx, hxe⟩ := h
  by_cases hau : x.assignedUser = uid
  · simp only [hau, if_pos] at hxe
    exact ⟨x, hx, by rw [← hxe], by rw [← hxe]; exact hau, by rw [← hxe]⟩
  · simp only [hau, if_neg, not_false_iff] at hxe
    exact ⟨x, hx, by rw [hxe], by rw [hxe], by rw [hxe]⟩

theorem pendingInv_postTasks (db : DB) (body : TaskBody) (newId : String)
    (h : PendingInv db) (hnd : UsersNodup db) :
    PendingInv (postTasks db body newId).1 := by
  unfold postTasks
  split
  · exact h
  next hval =>
    dsimp only
    split
    next hcond =>
      intro t ht hau hc u hu huid
      rw [tasks_addPending] at ht
      rcases List.mem_append.mp ht with hmem | hnew
      · refine userHas_addPending_mono ?_ u hu huid
        exact h t hmem hau hc
      · have ht' := List.mem_singleton.mp hnew
        subst ht'
        refine userHas_addPending_self ?_ u hu huid
        exact hnd
    next hcond =>
      intro t ht hau hc u hu huid
      rcases List.mem_append.mp ht with hmem | hnew
      · exact h t hmem hau hc u hu huid
      · have ht' := List.mem_singleton.mp hnew
        subst ht'
        exact absurd ⟨hau, hc⟩ hcond

theorem pendingInv_putTasks (db : DB) (tid : String) (body : TaskBody)
    (h : PendingInv db) (hnd : UsersNodup db)
    (hsafe : putTaskCompletedReset db tid body = false) :
    PendingInv (putTasks db tid body).1 := by
  unfold putTasks
  split
  · exact h
  next hval =>
    split
    next heq => exact h
    next task heq =>
      obtain ⟨htask, htid⟩ := findTask_mem_id heq
      dsimp only
      split
      next hcond1 =>
        split
        next hcond2 =>
          intro t ht hau hc u hu huid
          rw [tasks_addPending, tasks_removePending] at ht
          rcases mem_saveTask ht with rfl | ⟨hmem, hne⟩
          · refine userHas_addPending_self ?_ u hu huid
            exact users_removePending_nodup hnd
          · refine userHas_addPending_mono ?_ u hu huid
            refine userHas_removePending_ne hne ?_
            exact h t hmem hau hc
        next hcond2 =>
          intro t ht hau hc u hu huid
          rw [tasks_removePending] at ht
          rcases mem_saveTask ht with rfl | ⟨hmem, hne⟩
          · exact absurd ⟨hau, hc⟩ hcond2
          · refine userHas_removePending_ne hne ?_ u hu huid
            exact h t hmem hau hc
      next hcond1 =>
        split
        next hcond2 =>
          dsimp only
          intro t ht hau hc u hu huid
          rw [tasks_addPending] at ht
          rcases mem_saveTask ht with rfl | ⟨hmem, hne⟩
          · refine userHas_addPending_self ?_ u hu huid
            exact hnd
          · refine userHas_addPending_mono ?_ u hu huid
            exact h t hmem hau hc
        next hcond2 =>
          dsimp only
          intro t ht hau hc u hu huid
          rcases mem_saveTask ht with rfl | ⟨hmem, hne⟩
          · have heqAU : task.assignedUser = body.assignedUser := by
              by_contra hneAU
              exact hcond2 ⟨hau, hc, hneAU⟩
            have hsafe' : ¬(task.assignedUser ≠ "" ∧ task.assignedUser = body.assignedUser ∧
                task.completed = true ∧ coerceCompleted body.completed = false) := by
              unfold putTaskCompletedReset at hsafe
              rw [heq] at hsafe
              exact of_decide_eq_false hsafe
            have holdAU : task.assignedUser ≠ "" := by
              rw [heqAU]; exact hau
            have holdC : task.completed = false := by
              by_contra hcc
              exact hsafe' ⟨holdAU, heqAU, Bool.not_eq_false _ ▸ (by simpa using hcc), hc⟩
            have huid' : u.id = task.assignedUser := by
              rw [heqAU]; exact huid
            exact h task htask holdAU holdC u hu huid'
          · exact h t hmem hau hc u hu huid

theorem pendingInv_deleteTasks (db : DB) (tid : String)
    (h : PendingInv db) : PendingInv (deleteTasks db tid).1 := by
  unfold deleteTasks
  split
  next heq => exact h
  next task heq =>
    obtain ⟨htask, htid⟩ := findTask_mem_id heq
    dsimp only
    split
    next hau0 =>
      intro t ht hau hc u hu huid
      unfold deleteTaskDoc at ht
      obtain ⟨ht1, hneb⟩ := List.mem_filter.mp ht
      have hne : t.id ≠ task.id := of_decide_eq_true hneb
      rw [tasks_removePending] at ht1
      refine userHas_removePending_ne hne ?_ u hu huid
      exact h t ht1 hau hc
    next hau0 =>
      intro t ht hau hc u hu huid
      unfold deleteTaskDoc at ht
      obtain ⟨ht1, hneb⟩ := List.mem_filter.mp ht
      exact h t ht1 hau hc u hu huid

theorem pendingInv_deleteUsers (db : DB) (uid : String)
    (h : PendingInv db) : PendingInv (deleteUsers db uid).1 := by
  unfold deleteUsers
  split
  next heq => exact h
  next user heq =>
    obtain ⟨huser, huid0⟩ := findUser_mem_id heq
    dsimp only
    intro t ht hau hc u hu huid
    have ht' : t ∈ (unassignAll db user.pendingTasks).tasks := ht
    have hmem : t ∈ db.tasks := unassignAll_assigned ht' hau
    have hu' : u ∈ (unassignAll db user.pendingTasks).users := by
      unfold deleteUserDoc at hu
      exact (List.mem_filter.mp hu).1
    rw [users_unassignAll] at hu'
    exact h t hmem hau hc u hu' huid

theorem pendingInv_postUsers (db : DB) (body : UserBody) (newId : String)
    (h : PendingInv db) (hfreshU : ∀ u ∈ db.users, u.id ≠ newId)
    (hfreshT : ∀ t ∈ db.tasks, t.assignedUser ≠ newId) :
    PendingInv (postUsers db body newId).1 := by
  unfold postUsers
  split
  · exact h
  next hval =>
    split
    · exact h
    next hdup =>
      dsimp only
      intro t ht hau hc u hu huid
      have hu' : u ∈ db.users ++
          [{ id := newId, name := body.name, email := body.email,
             pendingTasks := body.pendingTasks : DUser }] := by
        rw [users_assignAll] at hu
        exact hu
      rcases assignAll_mem ht with ⟨hmem, hni⟩ | ⟨hin, hau2, t0, ht0, hid0, hc0⟩
      · have hmem' : t ∈ db.tasks := hmem
        rcases List.mem_append.mp hu' with humem | hunew
        · exact h t hmem' hau hc u humem huid
        · have hue := List.mem_singleton.mp hunew
          subst hue
          exact absurd huid.symm (hfreshT t hmem')
      · have hin' : t.id ∈ body.pendingTasks := hin
        rcases List.mem_append.mp hu' with humem | hunew
        · have : u.id = newId := by rw [huid, hau2]
          exact absurd this (hfreshU u humem)
        · have hue := List.mem_singleton.mp hunew
          subst hue
          exact hin'

theorem pendingInv_bulkRename {db : DB} {uid nm : String}
    (h : PendingInv db) : PendingInv (bulkRename db uid nm) := by
  intro t ht hau hc u hu huid
  obtain ⟨t0, ht0, hid, hau0, hc0⟩ := bulkRename_origin ht
  have hu' : u ∈ db.users := by rw [users_bulkRename] at hu; exact hu
  have := h t0 ht0 (by rw [hau0]; exact hau) (by rw [hc0]; exact hc) u hu'
    (by rw [hau0]; exact huid)
  rw [hid] at this
  exact this

theorem pendingInv_putUsersCore (db : DB) (user : DUser) (body : UserBody)
    (huser : user ∈ db.users) (h : PendingInv db) :
    PendingInv (assignAll
      (unassignAll
        (saveUser db
          { user with
            name := body.name, email := body.email,
            pendingTasks := body.pendingTasks })
        (user.pendingTasks.filter (fun t => t ∉ body.pendingTasks)))
      (body.pendingTasks.filter (fun t => t ∉ user.pendingTasks)) user.id body.name) := by
  intro t ht hau hc u hu huid
  have hu' : u ∈ (saveUser db
      { user with
        name := body.name, email := body.email,
        pendingTasks := body.pendingTasks }).users := by
    rw [users_assignAll, users_unassignAll] at hu
    exact hu
  rcases assignAll_mem ht with ⟨hmem2, hniA⟩ | ⟨hinA, hau2, t0, ht0, hid0, hc0⟩
  · have hmem1 : t ∈ (unassignAll (saveUser db
        { user with
          name := body.name, email := body.email,
          pendingTasks := body.pendingTasks })
        (user.pendingTasks.filter (fun t => t ∉ body.pendingTasks))).tasks := hmem2
    have hmem0' := unassignAll_assigned hmem1 hau
    have hmem0 : t ∈ db.tasks := hmem0'
    have hniR : t.id ∉ user.pendingTasks.filter (fun t => t ∉ body.pendingTasks) := by
      intro hinR
      obtain ⟨he, _⟩ := unassignAll_hit hmem1 hinR
      exact hau he
    have hUH : UserHas db t.assignedUser t.id := h t hmem0 hau hc
    refine userHas_saveUser ?_ hUH u hu' huid
    intro hid'
    have hinOld : t.id ∈ user.pendingTasks := hUH user huser hid'
    by_contra hnotNew
    exact hniR (List.mem_filter.mpr ⟨hinOld, decide_eq_true hnotNew⟩)
  · have hinNew : t.id ∈ body.pendingTasks := (List.mem_filter.mp hinA).1
    have huid' : u.id = user.id := by rw [huid, hau2]
    exact userHas_saveUser_self hinNew u hu' huid'

theorem pendingInv_putUsers (db : DB) (uid : String) (body : UserBody)
    (h : PendingInv db) : PendingInv (putUsers db uid body).1 := by
  unfold putUsers
  split
  · exact h
  next hval =>
    split
    next heq => exact h
    next user heq =>
      obtain ⟨huser, huid0⟩ := findUser_mem_id heq
      dsimp only
      split
      · exact h
      next hdup =>
        dsimp only
        split
        next hrename =>
          exact pendingInv_bulkRename (pendingInv_putUsersCore db user body huser h)
        next hrename =>
          exact pendingInv_putUsersCore db user body huser h

theorem find?_map_replaceUser (l : List DUser) (u' : DUser) (uid : String) (h : u'.id ≠ uid) :
    (l.map (fun x => if x.id = u'.id then u' else x)).find? (fun u => u.id == uid) =
      l.find? (fun u => u.id == uid) := by
  induction l with
  | nil => rfl
  | cons x rest ih =>
    rw [List.map_cons]
    by_cases hx : x.id = u'.id
    · rw [if_pos hx]
      have h1 : (u'.id == uid) = false := by simp [h]
      have h2 : (x.id == uid) = false := by simp [hx, h]
      rw [List.find?_cons_of_neg _ (by simp [h]), List.find?_cons_of_neg _ (by simp [hx, h])]
      exact ih
    · rw [if_neg hx]
      by_cases hxu : x.id = uid
      · rw [List.find?_cons_of_pos _ (by simp [hxu]), List.find?_cons_of_pos _ (by simp [hxu])]
      · rw [List.find?_cons_of_neg _ (by simp [hxu]), List.find?_cons_of_neg _ (by simp [hxu])]
        exact ih

theorem findUser_saveUser_ne {db : DB} {u' : DUser} {uid : String} (h : u'.id ≠ uid) :
    findUser (saveUser db u') uid = findUser db uid := by
  unfold findUser saveUser
  exact find?_map_replaceUser db.users u' uid h

theorem findUser_removePending_ne {db : DB} {uid tid uid' : String} (h : uid ≠ uid') :
    findUser (removePending db uid tid) uid' = findUser db uid' := by
  unfold removePending
  cases hf : findUser db uid with
  | none => rfl
  | some u0 =>
    obtain ⟨hu0, hid0⟩ := findUser_mem_id hf
    exact findUser_saveUser_ne (by simpa [hid0] using h)

theorem mem_removePending_of_ne {db : DB} {uid tid : String} {u : DUser}
    (hu : u ∈ (removePending db uid tid).users) (hne : u.id ≠ uid) : u ∈ db.users := by
  unfold removePending at hu
  cases hf : findUser db uid with
  | none => rw [hf] at hu; exact hu
  | some u0 =>
    obtain ⟨hu0, hid0⟩ := findUser_mem_id hf
    rw [hf] at hu
    rcases mem_saveUser hu with rfl | ⟨hmem, _⟩
    · exact absurd hid0 hne
    · exact hmem

theorem parseWhereFilterStep_ok {w f : Param}
    (hw : w ≠ Param.malformed) (hf : f ≠ Param.malformed)
    (hnull : w = Param.absent → f ≠ Param.parsed JValue.null) :
    ∃ x, parseWhereFilterStep w f = Except.ok x := by
  cases w with
  | malformed => exact absurd rfl hw
  | parsed v => exact ⟨(v, none), rfl⟩
  | absent =>
    cases f with
    | malformed => exact absurd rfl hf
    | absent => exact ⟨(JValue.obj [], none), rfl⟩
    | parsed v =>
      cases v
      case null => exact absurd rfl (hnull rfl)
      all_goals
        unfold parseWhereFilterStep
        dsimp only
        split <;> exact ⟨_, rfl⟩

theorem parseJsonStep_ok {p : Param} (msg : String) (hp : p ≠ Param.malformed) :
    ∃ x, parseJsonStep p msg = Except.ok x := by
  cases p with
  | malformed => exact absurd rfl hp
  | absent => exact ⟨none, rfl⟩
  | parsed v => exact ⟨some v, rfl⟩

theorem parseNumStep_err {s : String} (msg : String) (hs : s ≠ "")
    (hn : jsParseInt s = none) : parseNumStep s msg = Except.error msg := by
  unfold parseNumStep
  rw [if_neg hs, hn]

theorem parseNumStep_ok {s : String} (msg : String)
    (h : s = "" ∨ jsParseInt s ≠ none) : ∃ x, parseNumStep s msg = Except.ok x := by
  unfold parseNumStep
  by_cases hs : s = ""
  · rw [if_pos hs]; exact ⟨none, rfl⟩
  · rw [if_neg hs]
    cases hj : jsParseInt s with
    | none =>
      rcases h with h | h
      · exact absurd h hs
      · exact absurd hj h
    | some n => exact ⟨some n, rfl⟩

theorem parseQueryParams_ok_elim {req : ReqQuery} {dl : Option Int} {res : ParsedQuery}
    (hok : parseQueryParams req dl = Except.ok res) :
    ∃ q sel sortV selectV skipV limitV,
      parseWhereFilterStep req.whereQ req.filterQ = Except.ok (q, sel) ∧
      parseJsonStep req.sortQ "Invalid sort parameter. Must be valid JSON." = Except.ok sortV ∧
      parseJsonStep req.selectQ "Invalid select parameter. Must be valid JSON." = Except.ok selectV ∧
      parseNumStep req.skipQ "Invalid skip parameter. Must be a number." = Except.ok skipV ∧
      parseNumStep req.limitQ "Invalid limit parameter. Must be a number." = Except.ok limitV ∧
      res = { query := q
            , options :=
                { sort := sortV
                , select := match selectV with | some v => some v | none => sel
                , skip := skipV
                , limit := match limitV with | some n => some n | none => dl }
            , count := req.countQ = "true" } := by
  unfold parseQueryParams at hok
  split at hok
  · exact Except.noConfusion hok
  next q sel h1 =>
    split at hok
    · exact Except.noConfusion hok
    next sortV h2 =>
      split at hok
      · exact Except.noConfusion hok
      next selectV h3 =>
        split at hok
        · exact Except.noConfusion hok
        next skipV h4 =>
          split at hok
          · exact Except.noConfusion hok
          next limitV h5 =>
            injection hok with hres
            exact ⟨q, sel, sortV, selectV, skipV, limitV, h1, h2, h3, h4, h5, hres.symm⟩

/-- C10 (confirmed): on POST /api/tasks and PUT /api/tasks/:id the stored
`completed` field is true if and only if the request body's `completed` is
the boolean `true` or the exact string `"true"`; any other supplied value
(e.g. the number 1, the string `"True"`, or `"yes"`) yields
`completed = false`, and the saved task carries exactly this coerced
value. -/
theorem claim_C10_theorem :
    (∀ v : Option JValue, coerceCompleted v = true ↔
        v = some (JValue.bool true) ∨ v = some (JValue.str "true")) ∧
    coerceCompleted (some (JValue.num 1)) = false ∧
    coerceCompleted (some (JValue.str "True")) = false ∧
    coerceCompleted (some (JValue.str "yes")) = false ∧
    (∀ (db : DB) (body : TaskBody) (newId : String),
      body.name ≠ "" → body.deadline ≠ "" →
      ∃ t ∈ (postTasks db body newId).1.tasks, t.id = newId ∧
        t.completed = coerceCompleted body.completed) ∧
    (∀ (db : DB) (tid : String) (body : TaskBody) (task : DTask),
      findTask db tid = some task → body.name ≠ "" → body.deadline ≠ "" →
      ∃ t ∈ (putTasks db tid body).1.tasks, t.id = tid ∧
        t.completed = coerceCompleted body.completed) := by
  refine ⟨?_, rfl, ?_, ?_, ?_, ?_⟩
  · intro v
    cases v with
    | none => simp [coerceCompleted]
    | some jv =>
      cases jv with
      | null => simp [coerceCompleted]
      | bool b => cases b <;> simp [coerceCompleted]
      | num n => simp [coerceCompleted]
      | str s => simp [coerceCompleted]
      | arr xs => simp [coerceCompleted]
      | obj fs => simp [coerceCompleted]
  · simp [coerceCompleted]
  · simp [coerceCompleted]
  · intro db body newId hname hdl
    unfold postTasks
    rw [if_neg (by simp [hname, hdl])]
    dsimp only
    refine ⟨{ id := newId,
              name := body.name,
              description := body.description,
              deadline := body.deadline,
              completed := coerceCompleted body.completed,
              assignedUser := body.assignedUser,
              assignedUserName :=
                resolveAssignedUserName db body.assignedUser body.assignedUserName },
            ?_, rfl, rfl⟩
    split
    next hcond =>
      rw [tasks_addPending]
      exact List.mem_append_right _ (List.mem_singleton_self _)
    next hcond =>
      exact List.mem_append_right _ (List.mem_singleton_self _)
  · intro db tid body task hfind hname hdl
    obtain ⟨htask, htid⟩ := findTask_mem_id hfind
    unfold putTasks
    rw [if_neg (by simp [hname, hdl]), hfind]
    dsimp only
    refine ⟨{ task with
              name := body.name,
              description := body.description,
              deadline := body.deadline,
              completed := coerceCompleted body.completed,
              assignedUser := body.assignedUser,
              assignedUserName :=
                resolveAssignedUserName db body.assignedUser body.assignedUserName },
            ?_, htid, rfl⟩
    split
    next hb1 =>
      split
      next hb2 =>
        rw [tasks_addPending, tasks_removePending]
        exact saveTask_mem_self htask rfl
      next hb2 =>
        rw [tasks_removePending]
        exact saveTask_mem_self htask rfl
    next hb1 =>
      split
      next hb2 =>
        rw [tasks_addPending]
        exact saveTask_mem_self htask rfl
      next hb2 =>
        exact saveTask_mem_self htask rfl

/-- C10 witness: the coercion evaluated at string `"true"` and the saved
task of a concrete POST, via `claim_C10_theorem`. -/
theorem claim_C10_witness :
    (coerceCompleted (some (JValue.str "true")) = true ↔
      some (JValue.str "true") = some (JValue.bool true) ∨
      some (JValue.str "true") = some (JValue.str "true")) ∧
    (∃ t ∈ (postTasks ⟨[], []⟩ { name := "T", deadline := "d" } "t1").1.tasks,
      t.id = "t1" ∧ t.completed = coerceCompleted
        ({ name := "T", deadline := "d" : TaskBody }).completed) :=
  ⟨claim_C10_theorem.1 (some (JValue.str "true")),
   claim_C10_theorem.2.2.2.2.1 ⟨[], []⟩ { name := "T", deadline := "d" } "t1"
     (by decide) (by decide)⟩

/-- C3 counterexample: a POST /api/users whose user document was saved but
whose pendingTasks repair step fails answers 500 "Error updating assigned
tasks", not the claimed 201 — the repair failure is surfaced to the
caller. -/
theorem claim_C3_counterexample :
    postUsersRepairResp ⟨"u1", "Alice", "alice@x", ["t1"]⟩ (Except.error "boom")
      = ⟨500, some "Error updating assigned tasks"⟩ := rfl

/-- C3 (amended): only the POST /api/tasks pendingTasks repair carries its
own catch that swallows the failure (the response is 201 regardless of the
repair outcome); repair failures in POST /api/users, PUT /api/users and
PUT /api/tasks propagate to the handler's catch and are surfaced as 500
responses. -/
theorem claim_C3_theorem :
    (∀ (t : DTask) (r : Except String Unit),
      postTasksRepairResp t r = ⟨201, some "Task created successfully"⟩) ∧
    (∀ (u : DUser) (e : String), u.pendingTasks ≠ [] →
      postUsersRepairResp u (Except.error e) = ⟨500, some "Error updating assigned tasks"⟩) ∧
    (∀ e : String, putUsersRepairResp (Except.error e) = ⟨500, some "Error updating user"⟩) ∧
    (∀ (oldAU newAU : String) (oldC newC : Bool) (e : String),
      (oldAU ≠ "" ∧ (oldAU ≠ newAU ∨ (newC = true ∧ oldC = false))) ∨
        (newAU ≠ "" ∧ newC = false ∧ oldAU ≠ newAU) →
      putTasksRepairResp oldAU newAU oldC newC (Except.error e)
        = ⟨500, some "Error updating task"⟩) := by
  refine ⟨?_, ?_, ?_, ?_⟩
  · intro t r
    unfold postTasksRepairResp
    split
    · cases r <;> rfl
    · rfl
  · intro u e h
    unfold postUsersRepairResp
    rw [if_pos h]
  · intro e
    rfl
  · intro oldAU newAU oldC newC e h
    unfold putTasksRepairResp
    split
    · rfl
    next hc1 =>
      rcases h with h1 | h2
      · exact absurd h1 hc1
      · rw [if_pos h2]

/-- C3 witness: `claim_C3_theorem` applied to a failing repair after a
concrete task create (still 201) and a concrete user create (500). -/
theorem claim_C3_witness :
    postTasksRepairResp ⟨"t1", "T", "", "d", false, "u1", "Alice"⟩ (Except.error "x")
      = ⟨201, some "Task created successfully"⟩ ∧
    postUsersRepairResp ⟨"u1", "A", "a@x", ["t1"]⟩ (Except.error "x")
      = ⟨500, some "Error updating assigned tasks"⟩ ∧
    putTasksRepairResp "u1" "u2" false false (Except.error "x")
      = ⟨500, some "Error updating task"⟩ :=
  ⟨claim_C3_theorem.1 _ _,
   claim_C3_theorem.2.1 _ _ (by decide),
   claim_C3_theorem.2.2.2 "u1" "u2" false false "x"
     (Or.inl ⟨by decide, Or.inl (by decide)⟩)⟩

/-- C5 counterexample: a `where` parse failure produces the message
"Invalid where parameter. Must be valid JSON.", which is not the exact
message "Invalid where/filter parameter. Must be valid JSON." the claim
asserts (a `filter` failure likewise gets its own distinct message). -/
theorem claim_C5_counterexample :
    getTasksParse { whereQ := Param.malformed }
      = Except.error "Invalid where parameter. Must be valid JSON." ∧
    "Invalid where parameter. Must be valid JSON."
      ≠ "Invalid where/filter parameter. Must be valid JSON." :=
  ⟨rfl, by decide⟩

/-- C5 (amended): `where` takes precedence over a simultaneously supplied
`filter` (which is then not consulted at all), `where=P` always sets the
filter predicate to P regardless of P's shape, and a JSON parse failure
yields "Invalid where parameter. Must be valid JSON." for `where` and
"Invalid filter parameter. Must be valid JSON." for `filter` (not one
shared "where/filter" message). -/
theorem claim_C5_theorem :
    (∀ (req : ReqQuery) (dl : Option Int) (v : JValue) (res : ParsedQuery),
      req.whereQ = Param.parsed v → parseQueryParams req dl = Except.ok res →
      res.query = v) ∧
    (∀ (req : ReqQuery) (dl : Option Int), req.whereQ ≠ Param.absent →
      parseQueryParams req dl = parseQueryParams { req with filterQ := Param.absent } dl) ∧
    (∀ (req : ReqQuery) (dl : Option Int), req.whereQ = Param.malformed →
      parseQueryParams req dl = Except.error "Invalid where parameter. Must be valid JSON.") ∧
    (∀ (req : ReqQuery) (dl : Option Int),
      req.whereQ = Param.absent → req.filterQ = Param.malformed →
      parseQueryParams req dl = Except.error "Invalid filter parameter. Must be valid JSON.") := by
  refine ⟨?_, ?_, ?_, ?_⟩
  · intro req dl v res hw hok
    obtain ⟨q, sel, sortV, selectV, skipV, limitV, h1, h2, h3, h4, h5, hres⟩ :=
      parseQueryParams_ok_elim hok
    rw [hw] at h1
    have h1' : (Except.ok (v, none) : Except String (JValue × Option JValue))
        = Except.ok (q, sel) := h1
    injection h1' with hpair
    injection hpair with hq hsel
    subst hres
    exact hq.symm
  · intro req dl hne
    obtain ⟨w, f, so, se, sk, li, co⟩ := req
    cases w with
    | absent => exact absurd rfl hne
    | malformed => rfl
    | parsed v => rfl
  · intro req dl hw
    obtain ⟨w, f, so, se, sk, li, co⟩ := req
    cases hw
    rfl
  · intro req dl hw hf
    obtain ⟨w, f, so, se, sk, li, co⟩ := req
    cases hw
    cases hf
    rfl

/-- C5 witness: `claim_C5_theorem` applied to a concrete request whose
`where` is the (non-object) JSON value 5 while `filter` is also present. -/
theorem claim_C5_witness :
    ({ query := JValue.num 5 : ParsedQuery }).query = JValue.num 5 ∧
    parseQueryParams
        { whereQ := Param.parsed (JValue.num 5)
        , filterQ := Param.parsed (JValue.obj [("a", JValue.num 1)]) } none
      = parseQueryParams
        { whereQ := Param.parsed (JValue.num 5), filterQ := Param.absent } none ∧
    parseQueryParams { whereQ := Param.malformed, filterQ := Param.malformed } none
      = Except.error "Invalid where parameter. Must be valid JSON." :=
  ⟨claim_C5_theorem.1
      { whereQ := Param.parsed (JValue.num 5)
      , filterQ := Param.parsed (JValue.obj [("a", JValue.num 1)]) } none
      (JValue.num 5) _ rfl rfl,
   claim_C5_theorem.2.1
      { whereQ := Param.parsed (JValue.num 5)
      , filterQ := Param.parsed (JValue.obj [("a", JValue.num 1)]) } none
      (fun h => Param.noConfusion h),
   claim_C5_theorem.2.2.1 { whereQ := Param.malformed, filterQ := Param.malformed } none rfl⟩

theorem isZeroOneNum_eq_true {v : JValue} :
    isZeroOneNum v = true ↔ v = JValue.num 1 ∨ v = JValue.num 0 := by
  cases v <;> simp [isZeroOneNum]

/-- The prefix parameters (where/filter/sort/select) all get through, so
the numeric stage's error is the one the interpreter reports.  Besides the
JSON parse failures this excludes a `filter` that parses to JSON `null`
when no `where` is present: that input trips `Object.keys(null)` inside
the filter try block and reports the filter error first. -/
def NoEarlierParamFailure (req : ReqQuery) : Prop :=
  req.whereQ ≠ Param.malformed ∧ req.filterQ ≠ Param.malformed ∧
  (req.whereQ = Param.absent → req.filterQ ≠ Param.parsed JValue.null) ∧
  req.sortQ ≠ Param.malformed ∧ req.selectQ ≠ Param.malformed

/-- C6 counterexample: `skip=12px` is not a numeric string, yet the
interpreter accepts it — JS `parseInt` reads the digit prefix, so the
result is `skip = 12` with no error (the claim asserts every non-numeric
string yields the "Must be a number." error). -/
theorem claim_C6_counterexample :
    parseQueryParams { skipQ := "12px" } tasksDefaultLimit
      = Except.ok { query := JValue.obj []
                  , options := { skip := some 12, limit := some 100 } } := rfl

/-- C6 (amended): a skip/limit string on which JS `parseInt` yields `NaN`
(no usable digit prefix, e.g. "abc") produces exactly the "Invalid skip
parameter. Must be a number." / "Invalid limit parameter. Must be a
number." error, provided no earlier parameter fails first — the earlier
failures being a malformed where/filter/sort/select and a `filter` that
parses to JSON `null` with no `where` present, which errors at
`Object.keys(null)` with the filter message instead; a string with a
digit prefix such as "12px" is accepted with the prefix's value.  When
`limit` is absent the result's limit falls back to the caller-supplied
per-resource default — `some 100` for GET /api/tasks and none for GET
/api/users. -/
theorem claim_C6_theorem :
    (∀ (req : ReqQuery) (dl : Option Int), NoEarlierParamFailure req →
      req.skipQ ≠ "" → jsParseInt req.skipQ = none →
      parseQueryParams req dl = Except.error "Invalid skip parameter. Must be a number.") ∧
    (∀ (req : ReqQuery) (dl : Option Int), NoEarlierParamFailure req →
      (req.skipQ = "" ∨ jsParseInt req.skipQ ≠ none) →
      req.limitQ ≠ "" → jsParseInt req.limitQ = none →
      parseQueryParams req dl = Except.error "Invalid limit parameter. Must be a number.") ∧
    (∀ (req : ReqQuery) (res : ParsedQuery), req.limitQ = "" →
      getTasksParse req = Except.ok res → res.options.limit = some 100) ∧
    (∀ (req : ReqQuery) (res : ParsedQuery), req.limitQ = "" →
      getUsersParse req = Except.ok res → res.options.limit = none) := by
  refine ⟨?_, ?_, ?_, ?_⟩
  · intro req dl hpre hskip hnan
    obtain ⟨hw, hf, hnl, hso, hse⟩ := hpre
    obtain ⟨⟨q, sel⟩, h1⟩ := parseWhereFilterStep_ok hw hf hnl
    obtain ⟨sortV, h2⟩ := parseJsonStep_ok "Invalid sort parameter. Must be valid JSON." hso
    obtain ⟨selectV, h3⟩ := parseJsonStep_ok "Invalid select parameter. Must be valid JSON." hse
    unfold parseQueryParams
    rw [h1, h2, h3, parseNumStep_err "Invalid skip parameter. Must be a number." hskip hnan]
  · intro req dl hpre hskipOk hlimit hnan
    obtain ⟨hw, hf, hnl, hso, hse⟩ := hpre
    obtain ⟨⟨q, sel⟩, h1⟩ := parseWhereFilterStep_ok hw hf hnl
    obtain ⟨sortV, h2⟩ := parseJsonStep_ok "Invalid sort parameter. Must be valid JSON." hso
    obtain ⟨selectV, h3⟩ := parseJsonStep_ok "Invalid select parameter. Must be valid JSON." hse
    obtain ⟨skipV, h4⟩ := parseNumStep_ok "Invalid skip parameter. Must be a number." hskipOk
    unfold parseQueryParams
    rw [h1, h2, h3, h4, parseNumStep_err "Invalid limit parameter. Must be a number." hlimit hnan]
  · intro req res hlim hok
    unfold getTasksParse at hok
    obtain ⟨q, sel, sortV, selectV, skipV, limitV, h1, h2, h3, h4, h5, hres⟩ :=
      parseQueryParams_ok_elim hok
    rw [hlim] at h5
    have h5' : (Except.ok none : Except String (Option Int)) = Except.ok limitV := h5
    injection h5' with hl
    subst hres
    show (match limitV with | some n => some n | none => tasksDefaultLimit) = some 100
    rw [← hl]
    rfl
  · intro req res hlim hok
    unfold getUsersParse at hok
    obtain ⟨q, sel, sortV, selectV, skipV, limitV, h1, h2, h3, h4, h5, hres⟩ :=
      parseQueryParams_ok_elim hok
    rw [hlim] at h5
    have h5' : (Except.ok none : Except String (Option Int)) = Except.ok limitV := h5
    injection h5' with hl
    subst hres
    show (match limitV with | some n => some n | none => usersDefaultLimit) = none
    rw [← hl]
    rfl

/-- C6 witness: `claim_C6_theorem` applied to the spec's own examples —
`skip=abc` and `limit=abc` error, and an absent limit yields 100 for the
tasks route and none for the users route. -/
theorem claim_C6_witness :
    parseQueryParams { skipQ := "abc" } tasksDefaultLimit
      = Except.error "Invalid skip parameter. Must be a number." ∧
    parseQueryParams { limitQ := "abc" } tasksDefaultLimit
      = Except.error "Invalid limit parameter. Must be a number." ∧
    ({ query := JValue.obj [], options := { limit := some 100 } : ParsedQuery }).options.limit
      = some 100 ∧
    ({ query := JValue.obj [] : ParsedQuery }).options.limit = none :=
  ⟨claim_C6_theorem.1 { skipQ := "abc" } tasksDefaultLimit
      ⟨fun h => Param.noConfusion h, fun h => Param.noConfusion h,
       fun _ h => Param.noConfusion h,
       fun h => Param.noConfusion h, fun h => Param.noConfusion h⟩
      (by decide) rfl,
   claim_C6_theorem.2.1 { limitQ := "abc" } tasksDefaultLimit
      ⟨fun h => Param.noConfusion h, fun h => Param.noConfusion h,
       fun _ h => Param.noConfusion h,
       fun h => Param.noConfusion h, fun h => Param.noConfusion h⟩
      (Or.inl rfl) (by decide) rfl,
   claim_C6_theorem.2.2.1 { limitQ := "" } _ rfl rfl,
   claim_C6_theorem.2.2.2 { limitQ := "" } _ rfl rfl⟩

/-- C9 (confirmed): a skip or limit that parses to the integer 0 is
accepted without error but never applied by the GET handlers' truthiness
guards; in particular `limit=0` on GET /api/tasks overrides the default
100 with a value that is then not applied, so the query runs with no
limit. -/
theorem claim_C9_theorem :
    (∀ (req : ReqQuery) (dl : Option Int) (res : ParsedQuery),
      parseQueryParams req dl = Except.ok res →
      (req.skipQ ≠ "" → jsParseInt req.skipQ = some 0 →
        res.options.skip = some 0 ∧ (applyOptions res).skipUsed = none) ∧
      (req.limitQ ≠ "" → jsParseInt req.limitQ = some 0 →
        res.options.limit = some 0 ∧ (applyOptions res).limitUsed = none)) ∧
    (getTasksParse { limitQ := "0" }
      = Except.ok { query := JValue.obj [], options := { limit := some 0 } } ∧
     (applyOptions { query := JValue.obj []
                   , options := { limit := some 0 } }).limitUsed = none) := by
  constructor
  · intro req dl res hok
    obtain ⟨q, sel, sortV, selectV, skipV, limitV, h1, h2, h3, h4, h5, hres⟩ :=
      parseQueryParams_ok_elim hok
    constructor
    · intro hs hzero
      have h4' : (Except.ok (some (0 : Int)) : Except String (Option Int))
          = Except.ok skipV := by
        rw [← h4]
        unfold parseNumStep
        rw [if_neg hs, hzero]
      injection h4' with hsv
      subst hres
      constructor
      · exact hsv.symm
      · show (match skipV with
          | some n => if n ≠ 0 then some n else none
          | none => none) = none
        rw [← hsv]
        rfl
    · intro hs hzero
      have h5' : (Except.ok (some (0 : Int)) : Except String (Option Int))
          = Except.ok limitV := by
        rw [← h5]
        unfold parseNumStep
        rw [if_neg hs, hzero]
      injection h5' with hlv
      subst hres
      constructor
      · show (match limitV with | some n => some n | none => dl) = some 0
        rw [← hlv]
      · show (match (match limitV with | some n => some n | none => dl) with
          | some n => if n ≠ 0 then some n else none
          | none => none) = none
        rw [← hlv]
        rfl
  · exact ⟨rfl, rfl⟩

/-- C9 witness: `claim_C9_theorem` applied to `skip=0&limit=0` on the tasks
route. -/
theorem claim_C9_witness :
    ({ query := JValue.obj []
     , options := { skip := some 0, limit := some 0 } : ParsedQuery }).options.skip = some 0 ∧
    (applyOptions { query := JValue.obj []
                  , options := { skip := some 0, limit := some 0 } }).skipUsed = none ∧
    ({ query := JValue.obj []
     , options := { skip := some 0, limit := some 0 } : ParsedQuery }).options.limit = some 0 ∧
    (applyOptions { query := JValue.obj []
                  , options := { skip := some 0, limit := some 0 } }).limitUsed = none := by
  have h := (claim_C9_theorem.1 { skipQ := "0", limitQ := "0" } tasksDefaultLimit
    { query := JValue.obj [], options := { skip := some 0, limit := some 0 } } rfl)
  exact ⟨(h.1 (by decide) rfl).1, (h.1 (by decide) rfl).2,
         (h.2 (by decide) rfl).1, (h.2 (by decide) rfl).2⟩

/-- C2 (confirmed): with no `where` present and a valid JSON object P in
`filter` (and no explicit `select`), a non-empty P all of whose values are
the number 1 or the number 0 becomes the projection while the filter
predicate stays the empty object; any other P (including the empty object)
becomes the filter predicate and the projection stays unset. -/
theorem claim_C2_theorem (P : List (String × JValue)) (req : ReqQuery) (dl : Option Int)
    (res : ParsedQuery)
    (hw : req.whereQ = Param.absent)
    (hf : req.filterQ = Param.parsed (JValue.obj P))
    (hs : req.selectQ = Param.absent)
    (hok : parseQueryParams req dl = Except.ok res) :
    ((P ≠ [] ∧ ∀ kv ∈ P, kv.2 = JValue.num 1 ∨ kv.2 = JValue.num 0) →
      res.options.select = some (JValue.obj P) ∧ res.query = JValue.obj []) ∧
    (¬(P ≠ [] ∧ ∀ kv ∈ P, kv.2 = JValue.num 1 ∨ kv.2 = JValue.num 0) →
      res.query = JValue.obj P ∧ res.options.select = none) := by
  obtain ⟨q, sel, sortV, selectV, skipV, limitV, h1, h2, h3, h4, h5, hres⟩ :=
    parseQueryParams_ok_elim hok
  rw [hw, hf] at h1
  rw [hs] at h3
  have h3' : (Except.ok none : Except String (Option JValue)) = Except.ok selectV := h3
  injection h3' with hsel
  unfold parseWhereFilterStep at h1
  dsimp only at h1
  constructor
  · intro hP
    have hb : (((ownEntries (JValue.obj P)).all fun e => isZeroOneNum e.2)
        && !(ownEntries (JValue.obj P)).isEmpty) = true := by
      obtain ⟨hne, hall⟩ := hP
      rw [Bool.and_eq_true]
      constructor
      · rw [List.all_eq_true]
        intro e he
        exact isZeroOneNum_eq_true.mpr (hall e he)
      · cases P with
        | nil => exact absurd rfl hne
        | cons a l => rfl
    rw [if_pos hb] at h1
    have h1' : (Except.ok (JValue.obj [], some (JValue.obj P)) :
        Except String (JValue × Option JValue)) = Except.ok (q, sel) := h1
    injection h1' with hp
    injection hp with hq hsel2
    subst hres
    subst hsel
    subst hsel2
    subst hq
    exact ⟨rfl, rfl⟩
  · intro hP
    have hb : (((ownEntries (JValue.obj P)).all fun e => isZeroOneNum e.2)
        && !(ownEntries (JValue.obj P)).isEmpty) = false := by
      cases hbv : (((ownEntries (JValue.obj P)).all fun e => isZeroOneNum e.2)
          && !(ownEntries (JValue.obj P)).isEmpty) with
      | false => rfl
      | true =>
        exfalso
        rw [Bool.and_eq_true, List.all_eq_true] at hbv
        obtain ⟨hall, hne⟩ := hbv
        refine hP ⟨?_, fun kv hkv => isZeroOneNum_eq_true.mp (hall kv hkv)⟩
        intro hPnil
        subst hPnil
        simp [ownEntries] at hne
    have hnc : ¬((((ownEntries (JValue.obj P)).all fun e => isZeroOneNum e.2)
        && !(ownEntries (JValue.obj P)).isEmpty) = true) := by
      rw [hb]
      exact Bool.false_ne_true
    rw [if_neg hnc] at h1
    have h1' : (Except.ok (JValue.obj P, none) :
        Except String (JValue × Option JValue)) = Except.ok (q, sel) := h1
    injection h1' with hp
    injection hp with hq hsel2
    subst hres
    subst hsel
    subst hsel2
    subst hq
    exact ⟨rfl, rfl⟩

/-- C2 witness: `claim_C2_theorem` at the one-field projection object
`(a ↦ 1)` supplied as `filter`, with concrete parse. -/
theorem claim_C2_witness :
    parseQueryParams { filterQ := Param.parsed (JValue.obj [("a", JValue.num 1)]) } none
      = Except.ok { query := JValue.obj []
                  , options := { select := some (JValue.obj [("a", JValue.num 1)]) } } ∧
    ({ query := JValue.obj []
     , options := { select := some (JValue.obj [("a", JValue.num 1)]) } :
        ParsedQuery }).options.select = some (JValue.obj [("a", JValue.num 1)]) ∧
    ({ query := JValue.obj []
     , options := { select := some (JValue.obj [("a", JValue.num 1)]) } :
        ParsedQuery }).query = JValue.obj [] := by
  refine ⟨rfl, ?_⟩
  have h := (claim_C2_theorem [("a", JValue.num 1)]
    { filterQ := Param.parsed (JValue.obj [("a", JValue.num 1)]) } none
    { query := JValue.obj []
    , options := { select := some (JValue.obj [("a", JValue.num 1)]) } }
    rfl rfl rfl rfl).1
    ⟨List.cons_ne_nil _ _, by
      intro kv hkv
      rw [List.mem_singleton] at hkv
      subst hkv
      exact Or.inl rfl⟩
  exact h

theorem count_addPending {db : DB} {uid tid : String} {u0 : DUser}
    (hfind : findUser db uid = some u0) (hfresh : tid ∉ u0.pendingTasks) :
    ∀ u ∈ (addPending db uid tid).users, u.id = uid →
      u.pendingTasks.count tid = 1 := by
  obtain ⟨hu0, hid0⟩ := findUser_mem_id hfind
  unfold addPending
  rw [hfind]
  dsimp only
  rw [if_neg hfresh]
  intro u hu huid
  rcases mem_saveUser hu with rfl | ⟨hmem, hne⟩
  · show (u0.pendingTasks ++ [tid]).count tid = 1
    rw [List.count_append, List.count_eq_zero.mpr hfresh]
    simp
  · exact absurd (huid.trans hid0.symm) hne

theorem addPending_mem_already {db : DB} {uid tid : String} {u0 : DUser}
    (hnd : UsersNodup db)
    (hfind : findUser db uid = some u0) (hin : tid ∈ u0.pendingTasks) :
    ∀ u ∈ (addPending db uid tid).users, u.id = uid →
      u.pendingTasks = u0.pendingTasks := by
  obtain ⟨hu0, hid0⟩ := findUser_mem_id hfind
  unfold addPending
  rw [hfind]
  dsimp only
  rw [if_pos hin]
  intro u hu huid
  have : u = u0 := List.inj_on_of_nodup_map hnd hu hu0 (huid.trans hid0.symm)
  rw [this]

/-- C7 (confirmed): POST /api/tasks with a non-empty assignedUser U and
completed=false responds 201 and, when U exists and did not already list
the (fresh) task id, leaves U.pendingTasks containing the new id exactly
once. -/
theorem claim_C7_theorem (db : DB) (body : TaskBody) (newId : String) (u0 : DUser)
    (hname : body.name ≠ "") (hdl : body.deadline ≠ "")
    (hau : body.assignedUser ≠ "")
    (hc : coerceCompleted body.completed = false)
    (hfind : findUser db body.assignedUser = some u0)
    (hfresh : newId ∉ u0.pendingTasks) :
    (postTasks db body newId).2.status = 201 ∧
    ∀ u ∈ (postTasks db body newId).1.users, u.id = body.assignedUser →
      u.pendingTasks.count newId = 1 := by
  unfold postTasks
  rw [if_neg (by simp [hname, hdl])]
  dsimp only
  rw [if_pos ⟨hau, hc⟩]
  refine ⟨rfl, ?_⟩
  intro u hu huid
  refine count_addPending ?_ hfresh u hu huid
  exact hfind

/-- C8 (confirmed): DELETE /api/users/:id on an existing user unassigns
every task listed in its pendingTasks (missing ids silently skipped),
removes the user document and responds 204 with an empty body; a
nonexistent id yields 404, not 204. -/
theorem claim_C8_theorem (db : DB) (uid : String) :
    (findUser db uid = none →
      deleteUsers db uid = (db, ⟨404, some "User not found"⟩)) ∧
    (∀ user, findUser db uid = some user →
      (deleteUsers db uid).2 = ⟨204, none⟩ ∧
      (∀ t ∈ (deleteUsers db uid).1.tasks, t.id ∈ user.pendingTasks →
        t.assignedUser = "" ∧ t.assignedUserName = "unassigned") ∧
      (∀ u ∈ (deleteUsers db uid).1.users, u.id ≠ uid)) := by
  constructor
  · intro h
    unfold deleteUsers
    rw [h]
  · intro user h
    obtain ⟨huser, huid0⟩ := findUser_mem_id h
    unfold deleteUsers
    rw [h]
    dsimp only
    refine ⟨rfl, ?_, ?_⟩
    · intro t ht hin
      exact unassignAll_hit ht hin
    · intro u hu
      unfold deleteUserDoc at hu
      obtain ⟨hu1, hne⟩ := List.mem_filter.mp hu
      have hne' : u.id ≠ user.id := of_decide_eq_true hne
      rw [← huid0]
      exact hne'

/-- C8 witness: `claim_C8_theorem` on a store holding one user with two
pending tasks, and on a missing id. -/
theorem claim_C8_witness :
    (deleteUsers ⟨[⟨"u1", "A", "a@x", ["t1", "t2"]⟩],
        [⟨"t1", "T1", "", "d", false, "u1", "A"⟩,
         ⟨"t2", "T2", "", "d", false, "u1", "A"⟩]⟩ "u1").2 = ⟨204, none⟩ ∧
    (∀ t ∈ (deleteUsers ⟨[⟨"u1", "A", "a@x", ["t1", "t2"]⟩],
        [⟨"t1", "T1", "", "d", false, "u1", "A"⟩,
         ⟨"t2", "T2", "", "d", false, "u1", "A"⟩]⟩ "u1").1.tasks,
      t.id ∈ ["t1", "t2"] →
      t.assignedUser = "" ∧ t.assignedUserName = "unassigned") ∧
    deleteUsers ⟨[⟨"u1", "A", "a@x", ["t1", "t2"]⟩],
        [⟨"t1", "T1", "", "d", false, "u1", "A"⟩,
         ⟨"t2", "T2", "", "d", false, "u1", "A"⟩]⟩ "u9"
      = (⟨[⟨"u1", "A", "a@x", ["t1", "t2"]⟩],
          [⟨"t1", "T1", "", "d", false, "u1", "A"⟩,
           ⟨"t2", "T2", "", "d", false, "u1", "A"⟩]⟩, ⟨404, some "User not found"⟩) := by
  have h := ( claim_C8_theorem ⟨[⟨"u1", "A", "a@x", ["t1", "t2"]⟩],
      [⟨"t1", "T1", "", "d", false, "u1", "A"⟩,
       ⟨"t2", "T2", "", "d", false, "u1", "A"⟩]⟩ "u1").2
    ⟨"u1", "A", "a@x", ["t1", "t2"]⟩ rfl
  refine ⟨h.1, h.2.1, ?_⟩
  exact ( claim_C8_theorem ⟨[⟨"u1", "A", "a@x", ["t1", "t2"]⟩],
      [⟨"t1", "T1", "", "d", false, "u1", "A"⟩,
       ⟨"t2", "T2", "", "d", false, "u1", "A"⟩]⟩ "u9").1 rfl

/-- C7 witness: `claim_C7_theorem` on a store with one (empty) user. -/
theorem claim_C7_witness :
    (postTasks ⟨[⟨"u1", "A", "a@x", []⟩], []⟩
        { name := "T", deadline := "d", assignedUser := "u1" } "t1").2.status = 201 ∧
    ∀ u ∈ (postTasks ⟨[⟨"u1", "A", "a@x", []⟩], []⟩
        { name := "T", deadline := "d", assignedUser := "u1" } "t1").1.users,
      u.id = "u1" → u.pendingTasks.count "t1" = 1 :=
  claim_C7_theorem ⟨[⟨"u1", "A", "a@x", []⟩], []⟩
    { name := "T", deadline := "d", assignedUser := "u1" } "t1" ⟨"u1", "A", "a@x", []⟩
    (by decide) (by decide) (by decide) rfl rfl (by decide)

/-- C4 (confirmed): on PUT /api/tasks/:id of an existing task, when the old
assignedUser U1 is non-empty and the target changed or the task just
transitioned to completed, the task id is absent from U1's pendingTasks
afterwards; and when the new assignedUser U2 is non-empty, the new
completed is false and the target changed (including from unassigned), the
id ends up in U2's pendingTasks — appended only if it was not already
present (an already-listed id leaves U2's list unchanged).  Stated under
unique stored user ids. -/
theorem claim_C4_theorem (db : DB) (tid : String) (body : TaskBody) (task : DTask)
    (hnd : UsersNodup db)
    (hfind : findTask db tid = some task)
    (hname : body.name ≠ "") (hdl : body.deadline ≠ "") :
    (task.assignedUser ≠ "" →
      (task.assignedUser ≠ body.assignedUser ∨
        (coerceCompleted body.completed = true ∧ task.completed = false)) →
      ∀ u ∈ (putTasks db tid body).1.users, u.id = task.assignedUser →
        tid ∉ u.pendingTasks) ∧
    (body.assignedUser ≠ "" → coerceCompleted body.completed = false →
      task.assignedUser ≠ body.assignedUser →
      (∀ u ∈ (putTasks db tid body).1.users, u.id = body.assignedUser →
        tid ∈ u.pendingTasks) ∧
      (∀ u0, findUser db body.assignedUser = some u0 → tid ∈ u0.pendingTasks →
        ∀ u ∈ (putTasks db tid body).1.users, u.id = body.assignedUser →
          u.pendingTasks = u0.pendingTasks)) := by
  obtain ⟨htask, htid⟩ := findTask_mem_id hfind
  unfold putTasks
  rw [if_neg (by simp [hname, hdl]), hfind]
  dsimp only
  constructor
  · intro hold hch
    rw [if_pos ⟨hold, hch⟩]
    split
    next hb2 =>
      intro u hu huid
      have hne : task.assignedUser ≠ body.assignedUser := by
        rcases hch with h | ⟨hcT, hcF⟩
        · exact h
        · cases hcT ▸ hb2.2
      have hu' := mem_addPending_of_ne hu (by rw [huid]; exact hne)
      have hnm := removePending_not_mem u hu' huid
      rw [htid] at hnm
      exact hnm
    next hb2 =>
      intro u hu huid
      have hnm := removePending_not_mem u hu huid
      rw [htid] at hnm
      exact hnm
  · intro hnew hc hch
    by_cases hold : task.assignedUser = ""
    · rw [if_neg (by intro hcond; exact hcond.1 hold)]
      rw [if_pos ⟨hnew, hc, hch⟩]
      constructor
      · intro u hu huid
        rw [← htid]
        refine userHas_addPending_self ?_ u hu huid
        exact hnd
      · intro u0 hu0find hin u hu huid
        have hin' : task.id ∈ u0.pendingTasks := by rw [htid]; exact hin
        refine addPending_mem_already ?_ ?_ hin' u hu huid
        · exact hnd
        · exact hu0find
    · rw [if_pos ⟨hold, Or.inl hch⟩]
      rw [if_pos ⟨hnew, hc⟩]
      constructor
      · intro u hu huid
        rw [← htid]
        refine userHas_addPending_self ?_ u hu huid
        exact users_removePending_nodup hnd
      · intro u0 hu0find hin u hu huid
        have hin' : task.id ∈ u0.pendingTasks := by rw [htid]; exact hin
        refine addPending_mem_already ?_ ?_ hin' u hu huid
        · exact users_removePending_nodup hnd
        · exact (findUser_removePending_ne hch).trans hu0find

/-- C4 witness: `claim_C4_theorem` on reassigning a not-completed task from
u1 to u2 — the id leaves u1's pendingTasks and joins u2's. -/
theorem claim_C4_witness :
    (∀ u ∈ (putTasks ⟨[⟨"u1", "A", "a@x", ["t1"]⟩, ⟨"u2", "B", "b@x", []⟩],
        [⟨"t1", "T", "", "d", false, "u1", "A"⟩]⟩ "t1"
        { name := "T", deadline := "d", assignedUser := "u2", assignedUserName := "B" }).1.users,
      u.id = "u1" → "t1" ∉ u.pendingTasks) ∧
    (∀ u ∈ (putTasks ⟨[⟨"u1", "A", "a@x", ["t1"]⟩, ⟨"u2", "B", "b@x", []⟩],
        [⟨"t1", "T", "", "d", false, "u1", "A"⟩]⟩ "t1"
        { name := "T", deadline := "d", assignedUser := "u2", assignedUserName := "B" }).1.users,
      u.id = "u2" → "t1" ∈ u.pendingTasks) := by
  have h := claim_C4_theorem ⟨[⟨"u1", "A", "a@x", ["t1"]⟩, ⟨"u2", "B", "b@x", []⟩],
      [⟨"t1", "T", "", "d", false, "u1", "A"⟩]⟩ "t1"
      { name := "T", deadline := "d", assignedUser := "u2", assignedUserName := "B" }
      ⟨"t1", "T", "", "d", false, "u1", "A"⟩ (by decide) rfl (by decide) (by decide)
  exact ⟨h.1 (by decide) (Or.inl (by decide)), (h.2 (by decide) rfl (by decide)).1⟩

/-- C1 counterexample: the relationship invariant does not survive every
successful single operation — starting from a store satisfying it (one
completed task assigned to u1, whose id is accordingly not in u1's
pendingTasks), a successful (200) PUT /api/tasks/:id that keeps
assignedUser = u1 and sets completed back to false triggers neither sync
branch, leaving an assigned, not-completed task whose id is missing from
u1.pendingTasks. -/
theorem claim_C1_counterexample :
    PendingInv ⟨[⟨"u1", "Alice", "alice@x", []⟩],
                [⟨"t1", "T", "", "d", true, "u1", "Alice"⟩]⟩ ∧
    (putTasks ⟨[⟨"u1", "Alice", "alice@x", []⟩],
               [⟨"t1", "T", "", "d", true, "u1", "Alice"⟩]⟩ "t1"
      { name := "T", deadline := "d", assignedUser := "u1"
      , assignedUserName := "Alice" }).2.status = 200 ∧
    ¬ PendingInv (putTasks ⟨[⟨"u1", "Alice", "alice@x", []⟩],
               [⟨"t1", "T", "", "d", true, "u1", "Alice"⟩]⟩ "t1"
      { name := "T", deadline := "d", assignedUser := "u1"
      , assignedUserName := "Alice" }).1 :=
  ⟨by decide, by decide, by decide⟩

/-- C1 (amended): after any single successful mutating handler operation
the invariant — every task with a non-empty assignedUser and completed =
false has its id in the pendingTasks of every stored user carrying that id
— is preserved, EXCEPT for a PUT /api/tasks/:id that keeps the same
non-empty assignedUser while resetting completed from true to false (that
input reaches neither sync branch and is excluded via `OpSafe`); user
creation is assumed to receive a freshly generated `_id` and stored user
ids are unique. -/
theorem claim_C1_theorem (db : DB) (op : Op)
    (hinv : PendingInv db) (hnd : UsersNodup db) (hsafe : OpSafe db op) :
    PendingInv (step db op).1 := by
  cases op with
  | postTask body newId => exact pendingInv_postTasks db body newId hinv hnd
  | putTask tid body => exact pendingInv_putTasks db tid body hinv hnd hsafe
  | deleteTask tid => exact pendingInv_deleteTasks db tid hinv
  | postUser body newId => exact pendingInv_postUsers db body newId hinv hsafe.1 hsafe.2
  | putUser uid body => exact pendingInv_putUsers db uid body hinv
  | deleteUser uid => exact pendingInv_deleteUsers db uid hinv

/-- C1 witness: `claim_C1_theorem` applied to a concrete reassigning PUT on
a store satisfying the invariant. -/
theorem claim_C1_witness :
    PendingInv ⟨[⟨"u1", "A", "a@x", ["t1"]⟩, ⟨"u2", "B", "b@x", []⟩],
                [⟨"t1", "T", "", "d", false, "u1", "A"⟩]⟩ ∧
    UsersNodup ⟨[⟨"u1", "A", "a@x", ["t1"]⟩, ⟨"u2", "B", "b@x", []⟩],
                [⟨"t1", "T", "", "d", false, "u1", "A"⟩]⟩ ∧
    OpSafe ⟨[⟨"u1", "A", "a@x", ["t1"]⟩, ⟨"u2", "B", "b@x", []⟩],
            [⟨"t1", "T", "", "d", false, "u1", "A"⟩]⟩
      (Op.putTask "t1" { name := "T", deadline := "d", assignedUser := "u2" }) ∧
    PendingInv (step ⟨[⟨"u1", "A", "a@x", ["t1"]⟩, ⟨"u2", "B", "b@x", []⟩],
                      [⟨"t1", "T", "", "d", false, "u1", "A"⟩]⟩
      (Op.putTask "t1" { name := "T", deadline := "d", assignedUser := "u2" })).1 :=
  ⟨by decide, by decide, by decide,
   claim_C1_theorem ⟨[⟨"u1", "A", "a@x", ["t1"]⟩, ⟨"u2", "B", "b@x", []⟩],
        [⟨"t1", "T", "", "d", false, "u1", "A"⟩]⟩
     (Op.putTask "t1" { name := "T", deadline := "d", assignedUser := "u2" })
     (by decide) (by decide) (by decide)⟩
